import Mathlib

/-!
# gmgo: message composition and validation

A shallow embedding of `client.go`, `email.go` and `config.go` of the gmgo
package.  Go strings and byte slices are lists of bytes; the address lists of
an email are slices into a memory of backing arrays, so that `append` can
write in place; the standard-library routines the package calls (`strings`,
`encoding/base64`, `mime/multipart`, `path/filepath`) are embedded after their
Go sources; what depends on the machine (clock, random boundary, map iteration
order, MIME tables, file system, mail service) is an explicit parameter.
-/

namespace Gmgo

/-! ## Bytes and strings -/

/-- A Go `byte`. -/
abbrev Byte := Fin 256

/-- A Go `string` / `[]byte`: a sequence of bytes. -/
abbrev Str := List Byte

/-- The bytes of an ASCII string literal of the source. -/
def lit (s : String) : Str :=
  s.toList.map (fun c => (⟨c.toNat % 256, Nat.mod_lt _ (by decide)⟩ : Byte))

/-- The line break the source writes as `\r\n`. -/
def CRLF : Str := [13, 10]

/-- `strings.HasPrefix(s, p)`. -/
def hasPrefix : Str → Str → Bool
  | _, [] => true
  | [], _ :: _ => false
  | c :: s, d :: p => c == d && hasPrefix s p

/-- `strings.Contains(s, substr)`: `substr` occurs somewhere in `s`. -/
def stringsContains : Str → Str → Bool
  | [], substr => hasPrefix [] substr
  | c :: s, substr => hasPrefix (c :: s) substr || stringsContains s substr

/-- `strings.Join(elems, sep)`. -/
def stringsJoin : List Str → Str → Str
  | [], _ => []
  | [a], _ => a
  | a :: b :: rest, sep => a ++ sep ++ stringsJoin (b :: rest) sep

/-! ## email.go -/

/-- The `Attachment` struct. -/
structure Attachment where
  Filename : Str
  Content : List Byte
  MimeType : Str
  deriving DecidableEq, Repr

/-- A Go slice of strings (`[]string`): a window on a backing array, from
`offset`, `len` elements long, with room for `cap`. -/
structure Slice where
  array : Nat
  offset : Nat
  len : Nat
  cap : Nat
  deriving DecidableEq, Repr

/-- The memory the address slices of an email point into: the cells of the
backing arrays (`cells a i` is element `i` of array `a`), the next array to be
allocated, and the capacity the runtime gives a fresh array when `append` has
to allocate (from the old capacity and the length needed). -/
structure Memory where
  cells : Nat → Nat → Str
  next : Nat
  growCap : Nat → Nat → Nat

/-- The elements of a slice, read from memory. -/
def Slice.elems (s : Slice) (m : Memory) : List Str :=
  (List.range s.len).map (fun i => m.cells s.array (s.offset + i))

/-- Writing the values `xs` into array `a` from index `pos` on. -/
def Memory.store (m : Memory) (a pos : Nat) (xs : List Str) : Memory :=
  { m with
    cells := fun b i =>
      if b = a ∧ pos ≤ i ∧ i < pos + xs.length then xs.getD (i - pos) [] else m.cells b i }

/-- The built-in `append(s, xs...)`, `xs` being the elements read from the
second argument: when they fit in the capacity of `s` they are written into
its backing array behind its elements, otherwise a fresh array is allocated
and filled with the elements of `s` and `xs`. -/
def goAppend (m : Memory) (s : Slice) (xs : List Str) : Memory × Slice :=
  if s.len + xs.length ≤ s.cap then
    (m.store s.array (s.offset + s.len) xs, { s with len := s.len + xs.length })
  else
    ({ m.store m.next 0 (s.elems m ++ xs) with next := m.next + 1 },
      { array := m.next, offset := 0, len := s.len + xs.length,
        cap := m.growCap s.cap (s.len + xs.length) })

/-- The `Email` struct as it lies in memory: `To`, `Cc` and `Bcc` are slices
into `mem`.  `Attachments` is kept as the list of its elements (no other field
can share its backing array). -/
structure Email where
  mem : Memory
  toSlice : Slice
  ccSlice : Slice
  bccSlice : Slice
  Subject : Str
  Body : Str
  IsHTML : Bool := false
  Attachments : List Attachment := []
  From : Str := []
  ReplyTo : Str := []

/-- The elements of `email.To`. -/
def Email.To (email : Email) : List Str := email.toSlice.elems email.mem

/-- The elements of `email.Cc`. -/
def Email.Cc (email : Email) : List Str := email.ccSlice.elems email.mem

/-- The elements of `email.Bcc`. -/
def Email.Bcc (email : Email) : List Str := email.bccSlice.elems email.mem

/-- The fields of a composite literal `Email{...}` whose address lists are
slice literals `[]string{...}` (or left out). -/
structure EmailLit where
  To : List Str
  Cc : List Str := []
  Bcc : List Str := []
  Subject : Str
  Body : Str
  IsHTML : Bool := false
  Attachments : List Attachment := []
  From : Str := []
  ReplyTo : Str := []

/-- The email a composite literal builds: every slice literal has a backing
array of its own, filled to capacity. -/
def Email.literal (l : EmailLit) : Email :=
  { mem :=
      { cells := fun a i =>
          if a = 0 then l.To.getD i [] else if a = 1 then l.Cc.getD i []
          else if a = 2 then l.Bcc.getD i [] else []
        next := 3
        growCap := fun _ n => n }
    toSlice := { array := 0, offset := 0, len := l.To.length, cap := l.To.length }
    ccSlice := { array := 1, offset := 0, len := l.Cc.length, cap := l.Cc.length }
    bccSlice := { array := 2, offset := 0, len := l.Bcc.length, cap := l.Bcc.length }
    Subject := l.Subject, Body := l.Body, IsHTML := l.IsHTML, Attachments := l.Attachments
    From := l.From, ReplyTo := l.ReplyTo }

/-- `Email.AddRecipient`: `email.To = append(email.To, to)`. -/
def Email.AddRecipient (email : Email) (toAddr : Str) : Email :=
  let r := goAppend email.mem email.toSlice [toAddr]
  { email with mem := r.1, toSlice := r.2 }

/-- `Email.AttachFile`; the variadic `mimeType ...string` is a list. -/
def Email.AttachFile (email : Email) (filename : Str) (content : List Byte)
    (mimeType : List Str) : Email :=
  let attachment : Attachment := { Filename := filename, Content := content, MimeType := [] }
  let attachment :=
    match mimeType with
    | m :: _ => { attachment with MimeType := m }
    | [] => attachment
  { email with Attachments := email.Attachments ++ [attachment] }

/-! ## client.go: validation -/

/-- A Go `error` value: `none` is `nil`, `some msg` an error with that message. -/
abbrev GoError := Option Str

/-- `GmailClient.validateEmail`: the error it returns and the email as it lies
in memory afterwards.  `append(email.To, email.Cc...)` may write into the
backing array of `To`, and `email.Bcc` is read only after that. -/
def GmailClient.validateEmail (email : Email) : GoError × Email :=
  if email.toSlice.len = 0 then
    (some (lit "at least one recipient is required"), email)
  else if email.Subject = [] then
    (some (lit "subject is required"), email)
  else if email.Body = [] then
    (some (lit "email body is required"), email)
  else
    let r := goAppend email.mem email.toSlice (email.ccSlice.elems email.mem)
    let mem := r.1
    let allEmails := r.2
    let r := goAppend mem allEmails (email.bccSlice.elems mem)
    let mem := r.1
    let allEmails := r.2
    match (allEmails.elems mem).find?
        (fun emailAddr => !stringsContains emailAddr (lit "@")) with
    | some emailAddr => (some (lit "invalid email: " ++ emailAddr), { email with mem := mem })
    | none => (none, { email with mem := mem })

/-- The error `GmailClient.validateEmail` returns. -/
def validateEmail (email : Email) : GoError := (GmailClient.validateEmail email).1

/-! ## encoding/base64 -/

/-- The `encodeStd` alphabet of `encoding/base64`. -/
def encodeStd : Str :=
  lit "ABCDEFGHIJKLMNOPQRSTUVWXYZabcdefghijklmnopqrstuvwxyz0123456789+/"

/-- The `encodeURL` alphabet of `encoding/base64`. -/
def encodeURL : Str :=
  lit "ABCDEFGHIJKLMNOPQRSTUVWXYZabcdefghijklmnopqrstuvwxyz0123456789-_"

/-- `base64.StdPadding`, the character `=`. -/
def StdPadding : Byte := 61

/-- The lookup `enc.encode[i]` in a 64-entry alphabet. -/
def encAt (encode : Str) (i : Nat) : Byte := encode.getD i 0

/-- `(*Encoding).EncodeToString` for a padded encoding with alphabet `encode`:
three source bytes give four characters; a remainder of one or two bytes
is padded with `=`. -/
def EncodeToString (encode : Str) : List Byte → Str
  | a :: b :: c :: rest =>
    let val := a.val <<< 16 ||| b.val <<< 8 ||| c.val
    encAt encode (val >>> 18 &&& 0x3F) :: encAt encode (val >>> 12 &&& 0x3F) ::
      encAt encode (val >>> 6 &&& 0x3F) :: encAt encode (val &&& 0x3F) ::
      EncodeToString encode rest
  | [a, b] =>
    let val := a.val <<< 16 ||| b.val <<< 8
    [encAt encode (val >>> 18 &&& 0x3F), encAt encode (val >>> 12 &&& 0x3F),
      encAt encode (val >>> 6 &&& 0x3F), StdPadding]
  | [a] =>
    let val := a.val <<< 16
    [encAt encode (val >>> 18 &&& 0x3F), encAt encode (val >>> 12 &&& 0x3F),
      StdPadding, StdPadding]
  | [] => []

/-- The decode map built by `NewEncoding`: the index of a character in the
alphabet, or nothing for a character outside it. -/
def decodeMap (encode : Str) (c : Byte) : Option Nat :=
  let i := encode.indexOf c
  if i < encode.length then some i else none

/-- The low eight bits of a number, as a byte. -/
def toByte (n : Nat) : Byte := ⟨n % 256, Nat.mod_lt _ (by decide)⟩

/-- Decoding of padded base64 over the alphabet `encode` (RFC 4648): groups of
four characters give three bytes; only the last group may end in one or two
`=`.  Anything else is rejected. -/
def DecodeString (encode : Str) : Str → Option (List Byte)
  | [] => some []
  | c0 :: c1 :: c2 :: c3 :: rest =>
    if c3 = StdPadding then
      if rest ≠ [] then none
      else if c2 = StdPadding then do
        let d0 ← decodeMap encode c0
        let d1 ← decodeMap encode c1
        let val := d0 <<< 18 ||| d1 <<< 12
        pure [toByte (val >>> 16)]
      else do
        let d0 ← decodeMap encode c0
        let d1 ← decodeMap encode c1
        let d2 ← decodeMap encode c2
        let val := d0 <<< 18 ||| d1 <<< 12 ||| d2 <<< 6
        pure [toByte (val >>> 16), toByte (val >>> 8)]
    else do
      let d0 ← decodeMap encode c0
      let d1 ← decodeMap encode c1
      let d2 ← decodeMap encode c2
      let d3 ← decodeMap encode c3
      let val := d0 <<< 18 ||| d1 <<< 12 ||| d2 <<< 6 ||| d3
      let tl ← DecodeString encode rest
      pure (toByte (val >>> 16) :: toByte (val >>> 8) :: toByte val :: tl)
  | _ => none

/-- An alphabet fit for a padded encoding: 64 distinct characters, none `=`. -/
def GoodAlphabet (encode : Str) : Prop :=
  ∀ i : Fin 64, decodeMap encode (encAt encode i.val) = some i.val ∧
    encAt encode i.val ≠ StdPadding

instance (encode : Str) : Decidable (GoodAlphabet encode) := by
  unfold GoodAlphabet; infer_instance

/-- A byte of the URL-safe alphabet: `A-Z`, `a-z`, `0-9`, `-` or `_`. -/
def isUrlSafeChar (c : Byte) : Bool :=
  (65 ≤ c.val && c.val ≤ 90) || (97 ≤ c.val && c.val ≤ 122) || (48 ≤ c.val && c.val ≤ 57) ||
    c.val == 45 || c.val == 95

/-! ## net/textproto, mime/multipart, path/filepath -/

/-- A `textproto.MIMEHeader`: a map from header names to lists of values, kept
as an association list with distinct keys. -/
abbrev MIMEHeader := List (Str × List Str)

/-- `MIMEHeader.Set(key, value)`: `h[key] = []string{value}`.  Every key the
package passes is already in canonical MIME form, which
`CanonicalMIMEHeaderKey` leaves unchanged. -/
def MIMEHeader.Set (h : MIMEHeader) (key value : Str) : MIMEHeader :=
  if h.any (fun kv => kv.1 == key) then
    h.map (fun kv => if kv.1 = key then (key, [value]) else kv)
  else
    h ++ [(key, [value])]

/-- The `<` of Go strings: lexicographic on bytes. -/
def strLess : Str → Str → Bool
  | [], [] => false
  | [], _ :: _ => true
  | _ :: _, [] => false
  | a :: s, b :: t => decide (a < b) || (a == b && strLess s t)

/-- Insertion of a key into a sorted list of keys. -/
def insertSorted (k : Str) : List Str → List Str
  | [] => [k]
  | x :: xs => if strLess x k then x :: insertSorted k xs else k :: x :: xs

/-- `slices.Sort` on strings. -/
def sortStrings : List Str → List Str
  | [] => []
  | k :: ks => insertSorted k (sortStrings ks)

/-- The scan of `filepath.Ext`, from the last byte backwards: `rev` is what is
left to scan (reversed), `acc` the bytes already passed. -/
def extScan : List Byte → Str → Str
  | [], _ => []
  | c :: rev, acc =>
    if c = 47 then []
    else if c = 46 then c :: acc
    else extScan rev (c :: acc)

/-- `filepath.Ext(path)` with `/` as path separator: the suffix from the last
dot of the last path element, or the empty string. -/
def filepathExt (path : Str) : Str := extScan path.reverse []

/-- An instant of time (`time.Time`). -/
abbrev Time := Int

/-- What the composer takes from its surroundings. -/
structure Env where
  /-- The rendering `t.Format(time.RFC1123Z)` of an instant. -/
  formatRFC1123Z : Time → Str
  /-- The boundary drawn at random by `multipart.NewWriter`. -/
  boundary : Str
  /-- The order in which `for k, v := range header` visits a map. -/
  rangeOrder : MIMEHeader → MIMEHeader
  /-- The type the MIME tables of `mime.TypeByExtension` give for an
  extension, written here without its leading dot; empty when there is none. -/
  mimeTable : Str → Str

/-- `mime.TypeByExtension(ext)`.  Every key of the tables of package `mime`
starts with a dot (`AddExtensionType` refuses any other, built-in and file
entries are stored under `"." + ext`), so an `ext` without leading dot, the
empty one among them, has no type. -/
def Env.TypeByExtension (env : Env) (ext : Str) : Str :=
  match ext with
  | c :: e => if c = 46 then env.mimeTable e else []
  | [] => []

/-- A byte of a lower-case hexadecimal numeral. -/
def isHexDigit (c : Byte) : Bool := (48 ≤ c.val && c.val ≤ 57) || (97 ≤ c.val && c.val ≤ 102)

/-- The surroundings behave as Go promises: the boundary is 30 random bytes in
hexadecimal, and ranging over a map visits every entry once. -/
def Env.WF (env : Env) : Prop :=
  env.boundary.length = 60 ∧ (∀ c ∈ env.boundary, isHexDigit c = true) ∧
    ∀ h : MIMEHeader, (env.rangeOrder h).Perm h

/-- A `multipart.Writer` over a `bytes.Buffer`: the buffer, the boundary and
whether a part has been created. -/
structure Writer where
  w : Str
  boundary : Str
  lastpart : Bool

/-- `multipart.NewWriter(&buf)`. -/
def NewWriter (env : Env) (buf : Str) : Writer :=
  { w := buf, boundary := env.boundary, lastpart := false }

/-- `(*Writer).Boundary`. -/
def Writer.Boundary (w : Writer) : Str := w.boundary

/-- `(*Writer).CreatePart(header)`: the delimiter line, the header lines in
sorted key order, an empty line.  Writes to a `bytes.Buffer` do not fail. -/
def Writer.CreatePart (w : Writer) (header : MIMEHeader) : Except Str Writer :=
  let b := if w.lastpart then CRLF ++ lit "--" ++ w.boundary ++ CRLF
    else lit "--" ++ w.boundary ++ CRLF
  let keys := sortStrings (header.map Prod.fst)
  let b := b ++ (keys.map (fun k =>
    (((header.lookup k).getD []).map (fun v => k ++ lit ": " ++ v ++ CRLF)).flatten)).flatten
  let b := b ++ CRLF
  .ok { w with w := w.w ++ b, lastpart := true }

/-- The `Write` of the part returned by `CreatePart`. -/
def Writer.partWrite (w : Writer) (d : List Byte) : Except Str Writer :=
  .ok { w with w := w.w ++ d }

/-- `(*Writer).Close`: the closing delimiter line. -/
def Writer.Close (w : Writer) : Except Str Writer :=
  .ok { w with w := w.w ++ CRLF ++ lit "--" ++ w.boundary ++ lit "--" ++ CRLF, lastpart := false }

/-! ## client.go: composition -/

/-- The `gmail.Message` handed to the service; only `Raw` is set. -/
structure Message where
  Raw : Str
  deriving DecidableEq, Repr

/-- The MIME type `addAttachment` settles on. -/
def attachmentMimeType (env : Env) (attachment : Attachment) : Str :=
  let mimeType := attachment.MimeType
  if mimeType = [] then
    let mimeType := env.TypeByExtension (filepathExt attachment.Filename)
    if mimeType = [] then lit "application/octet-stream" else mimeType
  else mimeType

/-- `GmailClient.addAttachment`. -/
def addAttachment (env : Env) (writer : Writer) (attachment : Attachment) : Except Str Writer :=
  let mimeType := attachmentMimeType env attachment
  let header : MIMEHeader := []
  let header := header.Set (lit "Content-Type") mimeType
  let header := header.Set (lit "Content-Disposition")
    (lit "attachment; filename=" ++ attachment.Filename)
  let header := header.Set (lit "Content-Transfer-Encoding") (lit "base64")
  match writer.CreatePart header with
  | .error err => .error err
  | .ok partWriter =>
    let encoded := EncodeToString encodeStd attachment.Content
    partWriter.partWrite encoded

/-- The loop of `createMessageWithAttachments` over `email.Attachments`. -/
def addAttachments (env : Env) : Writer → List Attachment → Except Str Writer
  | writer, [] => .ok writer
  | writer, attachment :: rest =>
    match addAttachment env writer attachment with
    | .error err =>
      .error (lit "error agregando archivo adjunto " ++ attachment.Filename ++ lit ": " ++ err)
    | .ok writer => addAttachments env writer rest

/-- The top-level header map `createMessageWithAttachments` fills. -/
def attachmentsHeader (env : Env) (now : Time) (boundary : Str) (email : Email) : MIMEHeader :=
  let header : MIMEHeader := []
  let header := header.Set (lit "To") (stringsJoin email.To (lit ", "))
  let header := if email.Cc.length > 0 then
    header.Set (lit "Cc") (stringsJoin email.Cc (lit ", ")) else header
  let header := if email.Bcc.length > 0 then
    header.Set (lit "Bcc") (stringsJoin email.Bcc (lit ", ")) else header
  let header := if email.From ≠ [] then header.Set (lit "From") email.From else header
  let header := header.Set (lit "Subject") email.Subject
  let header := header.Set (lit "Date") (env.formatRFC1123Z now)
  header.Set (lit "Content-Type") (lit "multipart/mixed; boundary=" ++ boundary)

/-- The bytes `createMessageWithAttachments` has in its buffer before encoding,
or the error it returns. -/
def composeWithAttachments (env : Env) (now : Time) (email : Email) : Except Str Str :=
  let writer := NewWriter env []
  let boundary := writer.Boundary
  let header := attachmentsHeader env now boundary email
  let writer := { writer with w := writer.w ++
    ((env.rangeOrder header).map (fun (kv : Str × List Str) =>
      kv.1 ++ lit ": " ++ stringsJoin kv.2 (lit ", ") ++ CRLF)).flatten }
  let writer := { writer with w := writer.w ++ CRLF }
  let bodyHeader : MIMEHeader := []
  let bodyHeader := if email.IsHTML then
    bodyHeader.Set (lit "Content-Type") (lit "text/html; charset=UTF-8")
  else
    bodyHeader.Set (lit "Content-Type") (lit "text/plain; charset=UTF-8")
  match writer.CreatePart bodyHeader with
  | .error err => .error (lit "error creando parte del cuerpo: " ++ err)
  | .ok bodyWriter =>
    match bodyWriter.partWrite email.Body with
    | .error err => .error (lit "error escribiendo cuerpo: " ++ err)
    | .ok writer =>
      match addAttachments env writer email.Attachments with
      | .error err => .error err
      | .ok writer =>
        match writer.Close with
        | .error err => .error (lit "error cerrando writer: " ++ err)
        | .ok writer => .ok writer.w

/-- `GmailClient.createMessageWithAttachments`. -/
def createMessageWithAttachments (env : Env) (now : Time) (email : Email) :
    Except Str Message :=
  match composeWithAttachments env now email with
  | .error err => .error err
  | .ok buf => .ok { Raw := EncodeToString encodeURL buf }

/-- The bytes `createMessage` has in its buffer before encoding, for an email
without attachments. -/
def composeSimple (env : Env) (now : Time) (email : Email) : Str :=
  let buf : Str := []
  let buf := buf ++ (lit "To: " ++ stringsJoin email.To (lit ", ") ++ CRLF)
  let buf := if email.Cc.length > 0 then
    buf ++ (lit "Cc: " ++ stringsJoin email.Cc (lit ", ") ++ CRLF) else buf
  let buf := if email.Bcc.length > 0 then
    buf ++ (lit "Bcc: " ++ stringsJoin email.Bcc (lit ", ") ++ CRLF) else buf
  let buf := if email.From ≠ [] then buf ++ (lit "From: " ++ email.From ++ CRLF) else buf
  let buf := if email.ReplyTo ≠ [] then
    buf ++ (lit "Reply-To: " ++ email.ReplyTo ++ CRLF) else buf
  let buf := buf ++ (lit "Subject: " ++ email.Subject ++ CRLF)
  let buf := buf ++ (lit "Date: " ++ env.formatRFC1123Z now ++ CRLF)
  let buf := if email.IsHTML then
    buf ++ (lit "Content-Type: text/html; charset=UTF-8" ++ CRLF)
  else
    buf ++ (lit "Content-Type: text/plain; charset=UTF-8" ++ CRLF)
  let buf := buf ++ CRLF
  buf ++ email.Body

/-- `GmailClient.createMessage`. -/
def createMessage (env : Env) (now : Time) (email : Email) : Except Str Message :=
  if email.Attachments.length > 0 then
    createMessageWithAttachments env now email
  else
    .ok { Raw := EncodeToString encodeURL (composeSimple env now email) }

/-! ## client.go: sending -/

/-- The `SendResult` struct. -/
structure SendResult where
  MessageID : Str := []
  Success : Bool := false
  Error : Str := []
  SentAt : Time
  ThreadID : Str := []
  deriving DecidableEq, Repr

/-- The mail service behind `c.service.Users.Messages.Send("me", message).Do()`:
it answers with the message id and thread id, or with an error. -/
structure MailService where
  Send : Message → Except Str (Str × Str)

/-- `GmailClient.SendEmail`.  `sentAt` and `date` are the two readings of the
clock (for `SentAt` and for the `Date` header).  The value is the returned
pair `(result, err)` together with the messages handed to the service, in
order. -/
def SendEmail (env : Env) (service : MailService) (sentAt date : Time) (email : Email) :
    (SendResult × GoError) × List Message :=
  let result : SendResult := { SentAt := sentAt }
  match GmailClient.validateEmail email with
  | (some err, _) =>
    (({ result with Success := false, Error := err }, some err), [])
  | (none, email) =>
    match createMessage env date email with
    | .error err =>
      (({ result with Success := false, Error := lit "error creando mensaje: " ++ err },
        some err), [])
    | .ok message =>
      match service.Send message with
      | .error err =>
        (({ result with Success := false, Error := lit "error enviando email: " ++ err },
          some err), [message])
      | .ok (id, threadId) =>
        (({ result with MessageID := id, ThreadID := threadId, Success := true }, none),
          [message])

/-! ## config.go and `NewClient` -/

/-- The `Config` struct. -/
structure Config where
  CredentialsFile : Str
  TokenFile : Str
  Scopes : List Str
  deriving DecidableEq, Repr

/-- A call into the file system. -/
inductive FsCall where
  | Stat (path : Str)
  | ReadFile (path : Str)
  | Open (path : Str)
  deriving DecidableEq, Repr

/-- The file system as the package sees it. -/
structure FS where
  /-- Whether `os.IsNotExist(err)` holds for the error of `os.Stat(path)`. -/
  StatNotExist : Str → Bool
  /-- The content `os.ReadFile(path)` or `os.Open(path)` gives, or the error. -/
  Read : Str → Except Str Str

/-- `gmail.GmailSendScope`. -/
def GmailSendScope : Str := lit "https://www.googleapis.com/auth/gmail.send"

/-- `DefaultConfig`. -/
def DefaultConfig : Config :=
  { CredentialsFile := lit "gmgo_credentials.json"
    TokenFile := lit "gmgo_token.json"
    Scopes := [GmailSendScope] }

/-- `validateConfig`, with the file-system calls it made, in order. -/
def validateConfig (fs : FS) (cfg : Config) : GoError × List FsCall :=
  if cfg.CredentialsFile = [] then
    (some (lit "credentials_file is required"), [])
  else if cfg.TokenFile = [] then
    (some (lit "token_file is required"), [])
  else if fs.StatNotExist cfg.CredentialsFile then
    (some (lit "credentials file does not exist: " ++ cfg.CredentialsFile),
      [.Stat cfg.CredentialsFile])
  else if fs.StatNotExist cfg.TokenFile then
    (some (lit "token file does not exist: " ++ cfg.TokenFile),
      [.Stat cfg.CredentialsFile, .Stat cfg.TokenFile])
  else
    (none, [.Stat cfg.CredentialsFile, .Stat cfg.TokenFile])

/-- The libraries `loadConfig` and `NewClient` call: JSON decoding of a token,
`google.ConfigFromJSON` and `gmail.NewService`. -/
structure Externals (OAuthConfig Token Service : Type) where
  decodeToken : Str → Except Str Token
  ConfigFromJSON : Str → List Str → Except Str OAuthConfig
  NewService : OAuthConfig → Token → Except Str Service

/-- `tokenFromFile`, with its file-system calls. -/
def tokenFromFile {OAuthConfig Token Service : Type} (ext : Externals OAuthConfig Token Service)
    (fs : FS) (file : Str) : Except Str Token × List FsCall :=
  match fs.Read file with
  | .error err => (.error err, [.Open file])
  | .ok content => (ext.decodeToken content, [.Open file])

/-- `loadConfig`, with its file-system calls. -/
def loadConfig {OAuthConfig Token Service : Type} (ext : Externals OAuthConfig Token Service)
    (fs : FS) (cfg : Config) : Except Str (OAuthConfig × Token) × List FsCall :=
  match fs.Read cfg.CredentialsFile with
  | .error err =>
    (.error (lit "error reading credentials from " ++ cfg.CredentialsFile ++ lit ": " ++ err),
      [.ReadFile cfg.CredentialsFile])
  | .ok b =>
    match tokenFromFile ext fs cfg.TokenFile with
    | (.error err, calls) =>
      (.error (lit "error reading token from " ++ cfg.TokenFile ++ lit ": " ++ err),
        .ReadFile cfg.CredentialsFile :: calls)
    | (.ok token, calls) =>
      match ext.ConfigFromJSON b cfg.Scopes with
      | .error err =>
        (.error (lit "error configuring OAuth2: " ++ err), .ReadFile cfg.CredentialsFile :: calls)
      | .ok oauthConfig => (.ok (oauthConfig, token), .ReadFile cfg.CredentialsFile :: calls)

/-- The `GmailClient` struct (without its context). -/
structure GmailClient (Service : Type) where
  service : Service
  config : Config

/-- `NewClient`, with the file-system calls it made; `none` is a nil `cfg`. -/
def NewClient {OAuthConfig Token Service : Type} (ext : Externals OAuthConfig Token Service)
    (fs : FS) (cfg : Option Config) : Except Str (GmailClient Service) × List FsCall :=
  let cfg := match cfg with
    | none => DefaultConfig
    | some cfg => cfg
  let cfg := if cfg.Scopes.length = 0 then { cfg with Scopes := [GmailSendScope] } else cfg
  match validateConfig fs cfg with
  | (some err, calls) => (.error (lit "invalid configuration: " ++ err), calls)
  | (none, calls) =>
    match loadConfig ext fs cfg with
    | (.error err, calls2) => (.error (lit "error loading configuration: " ++ err), calls ++ calls2)
    | (.ok (oauthConfig, token), calls2) =>
      match ext.NewService oauthConfig token with
      | .error err => (.error (lit "error creating gmail service: " ++ err), calls ++ calls2)
      | .ok service => (.ok { service := service, config := cfg }, calls ++ calls2)

/-! ## Reading a message back

The reader the claims on parts and on the round trip speak of: lines end in
`\r\n`, a header block ends at the first empty line, a multipart body is cut at
its delimiter lines. -/

/-- `strings.Split(s, sep)` for a non-empty `sep`, scanning `s` from the left:
`skip` is the number of bytes of a separator just found that are still to be
passed over. -/
def splitFrom (sep : Str) : Str → Nat → List Str
  | [], _ => [[]]
  | _ :: s, skip + 1 => splitFrom sep s skip
  | c :: s, 0 =>
    if hasPrefix (c :: s) sep then
      [] :: splitFrom sep s (sep.length - 1)
    else
      match splitFrom sep s 0 with
      | piece :: pieces => (c :: piece) :: pieces
      | [] => [[c]]

/-- `strings.Split(s, sep)`. -/
def stringsSplit (s sep : Str) : List Str := splitFrom sep s 0

/-- `strings.CutPrefix(s, p)`: what follows `p` in `s`, when `s` starts with `p`. -/
def cutPrefix (s p : Str) : Option Str :=
  if hasPrefix s p then some (s.drop p.length) else none

/-- A MIME entity as a reader sees it: the header lines and the body. -/
structure Entity where
  header : List Str
  body : Str
  deriving DecidableEq, Repr

/-- Reading an entity: the header block is the text up to the first empty
line, one header per line; the body is all that follows the empty line. -/
def parseEntity (text : Str) : Entity :=
  let ls := stringsSplit text CRLF
  { header := ls.takeWhile (fun l => l ≠ [])
    body := stringsJoin ((ls.dropWhile (fun l => l ≠ [])).drop 1) CRLF }

/-- The value of the first header line named `key`. -/
def headerValue (header : List Str) (key : Str) : Option Str :=
  (header.find? (fun l => hasPrefix l (key ++ lit ": "))).bind
    (fun l => cutPrefix l (key ++ lit ": "))

/-- The pieces that follow the preamble of a multipart body, read up to the
closing delimiter: a piece that starts with `--` closes the body, a piece that
starts with a line break is a part. -/
def collectParts : List Str → Option (List Str)
  | [] => none
  | piece :: pieces =>
    if hasPrefix piece (lit "--") then some []
    else
      match cutPrefix piece CRLF with
      | none => none
      | some part => (collectParts pieces).map (fun parts => part :: parts)

/-- Splitting a multipart body at its boundary delimiter lines (RFC 2046: a
delimiter is a line break followed by `--` and the boundary; the first one
may open the body). -/
def multipartParts (boundary body : Str) : Option (List Entity) :=
  match stringsSplit (CRLF ++ body) (CRLF ++ lit "--" ++ boundary) with
  | [] => none
  | _ :: pieces => (collectParts pieces).map (fun parts => parts.map parseEntity)

/-- What a reader recovers of an attachment. -/
structure ParsedAttachment where
  Filename : Str
  Content : List Byte
  deriving DecidableEq, Repr

/-- What a reader recovers of an email. -/
structure ParsedEmail where
  To : List Str
  Subject : Str
  Body : Str
  Attachments : List ParsedAttachment
  deriving DecidableEq, Repr

/-- Reading an attachment part: the file name from `Content-Disposition`, the
content by standard base64 decoding of the part body. -/
def parseAttachment (part : Entity) : Option ParsedAttachment :=
  (headerValue part.header (lit "Content-Disposition")).bind fun cd =>
  (cutPrefix cd (lit "attachment; filename=")).bind fun filename =>
  (DecodeString encodeStd part.body).bind fun content =>
  some { Filename := filename, Content := content }

/-- Reading all attachment parts. -/
def parseAttachments : List Entity → Option (List ParsedAttachment)
  | [] => some []
  | part :: parts =>
    (parseAttachment part).bind fun a =>
    (parseAttachments parts).bind fun rest => some (a :: rest)

/-- Reading a decoded message. -/
def parseText (text : Str) : Option ParsedEmail :=
  let top := parseEntity text
  (headerValue top.header (lit "To")).bind fun toValue =>
  (headerValue top.header (lit "Subject")).bind fun subject =>
  (headerValue top.header (lit "Content-Type")).bind fun contentType =>
  match cutPrefix contentType (lit "multipart/mixed; boundary=") with
  | none =>
    some { To := stringsSplit toValue (lit ", "), Subject := subject, Body := top.body,
           Attachments := [] }
  | some boundary =>
    (multipartParts boundary top.body).bind fun parts =>
    match parts with
    | [] => none
    | first :: rest =>
      (parseAttachments rest).bind fun attachments =>
      some { To := stringsSplit toValue (lit ", "), Subject := subject, Body := first.body,
             Attachments := attachments }

/-- Reading the `Raw` payload of a message: URL-safe base64 decoding, then
reading the text as a MIME message. -/
def parseRaw (raw : Str) : Option ParsedEmail :=
  (DecodeString encodeURL raw).bind parseText

/-! ## The composed text in closed form -/

/-- The text one attachment adds to the buffer, after the delimiter line. -/
def attachmentPart (env : Env) (a : Attachment) : Str :=
  lit "Content-Disposition: attachment; filename=" ++ a.Filename ++ CRLF ++
  lit "Content-Transfer-Encoding: base64" ++ CRLF ++
  lit "Content-Type: " ++ attachmentMimeType env a ++ CRLF ++ CRLF ++
  EncodeToString encodeStd a.Content

/-- The text of the body part, after the delimiter line. -/
def bodyPart (email : Email) : Str :=
  (if email.IsHTML then lit "Content-Type: text/html; charset=UTF-8"
    else lit "Content-Type: text/plain; charset=UTF-8") ++ CRLF ++ CRLF ++ email.Body

/-- The top-level header lines of the attachment path, in the order the map
is ranged over. -/
def attachmentsHeaderLines (env : Env) (now : Time) (email : Email) : List Str :=
  (env.rangeOrder (attachmentsHeader env now env.boundary email)).map
    (fun (kv : Str × List Str) => kv.1 ++ lit ": " ++ stringsJoin kv.2 (lit ", "))

/-- The multipart body the attachment path writes. -/
def multipartBody (env : Env) (email : Email) : Str :=
  lit "--" ++ env.boundary ++ CRLF ++ bodyPart email ++
    (email.Attachments.map (fun a =>
      CRLF ++ lit "--" ++ env.boundary ++ CRLF ++ attachmentPart env a)).flatten ++
    CRLF ++ lit "--" ++ env.boundary ++ lit "--" ++ CRLF

/-- The text `createMessage` encodes. -/
def messageText (env : Env) (now : Time) (email : Email) : Str :=
  if email.Attachments = [] then composeSimple env now email
  else ((attachmentsHeaderLines env now email).map (fun l => l ++ CRLF)).flatten ++ CRLF ++
    multipartBody env email

/-- A header line as both paths write it. -/
def render (kv : Str × Str) : Str := kv.1 ++ lit ": " ++ kv.2

/-- The header names the package writes at the top of a message. -/
def envelopeKeys : List Str :=
  [lit "To", lit "Cc", lit "Bcc", lit "From", lit "Reply-To", lit "Subject", lit "Date",
    lit "Content-Type"]

/-- A header that is written only under a condition. -/
def optHeader (c : Bool) (k v : Str) : List (Str × Str) := if c then [(k, v)] else []

/-- The top-level headers of a message, as names and values, in the order of
the simple path; the attachment path has no `Reply-To`. -/
def envelope (email : Email) (date contentType : Str) (replyTo : Bool) : List (Str × Str) :=
  [(lit "To", stringsJoin email.To (lit ", "))] ++
  optHeader (decide (email.Cc ≠ [])) (lit "Cc") (stringsJoin email.Cc (lit ", ")) ++
  optHeader (decide (email.Bcc ≠ [])) (lit "Bcc") (stringsJoin email.Bcc (lit ", ")) ++
  optHeader (decide (email.From ≠ [])) (lit "From") email.From ++
  optHeader (replyTo && decide (email.ReplyTo ≠ [])) (lit "Reply-To") email.ReplyTo ++
  [(lit "Subject", email.Subject), (lit "Date", date), (lit "Content-Type", contentType)]

/-- The value of the `Content-Type` header of a text body. -/
def textContentType (email : Email) : Str :=
  if email.IsHTML then lit "text/html; charset=UTF-8" else lit "text/plain; charset=UTF-8"

/-- The delimiter of a multipart body: a line break, `--` and the boundary. -/
def delimiter (boundary : Str) : Str := CRLF ++ lit "--" ++ boundary

/-- The entity a reader should find for the body part. -/
def bodyEntity (email : Email) : Entity :=
  { header := [if email.IsHTML then lit "Content-Type: text/html; charset=UTF-8"
      else lit "Content-Type: text/plain; charset=UTF-8"]
    body := email.Body }

/-- The entity a reader should find for an attachment part. -/
def attachmentEntity (env : Env) (a : Attachment) : Entity :=
  { header := [lit "Content-Disposition: attachment; filename=" ++ a.Filename,
      lit "Content-Transfer-Encoding: base64",
      lit "Content-Type: " ++ attachmentMimeType env a]
    body := EncodeToString encodeStd a.Content }

/-! ## Conditions on the input -/

/-- No occurrence of `sep` starts inside `X` when `X` is followed by `Z`. -/
def NoOcc (sep X Z : Str) : Prop :=
  ∀ T, T ≠ [] → T <:+ X → hasPrefix (T ++ Z) sep = false

/-- A string without carriage return or line feed. -/
def noBreak (s : Str) : Prop := (13 : Byte) ∉ s ∧ (10 : Byte) ∉ s

instance (s : Str) : Decidable (noBreak s) := by unfold noBreak; infer_instance

/-- No header field of the email holds a line break: the addresses, `From`,
`Reply-To`, `Subject`, the rendered date, and each attachment's file name and
MIME type as written. -/
def HeaderSafe (env : Env) (now : Time) (email : Email) : Prop :=
  (∀ a ∈ email.To ++ email.Cc ++ email.Bcc, noBreak a) ∧
  noBreak email.From ∧ noBreak email.ReplyTo ∧ noBreak email.Subject ∧
  noBreak (env.formatRFC1123Z now) ∧
  ∀ a ∈ email.Attachments, noBreak a.Filename ∧ noBreak (attachmentMimeType env a)

instance (env : Env) (now : Time) (email : Email) : Decidable (HeaderSafe env now email) := by
  unfold HeaderSafe; infer_instance

/-! ## Sample values -/

/-- A sample of the surroundings. -/
def env0 : Env :=
  { formatRFC1123Z := fun _ => lit "Mon, 02 Jan 2006 15:04:05 -0700"
    boundary := List.replicate 60 48
    rangeOrder := fun h => h
    mimeTable := fun _ => [] }

/-- The surroundings of `env0` with another boundary drawn. -/
def env1 : Env := { env0 with boundary := List.replicate 60 49 }

/-- The surroundings of `env0` with another boundary and with maps ranged
over in reverse order. -/
def envRev : Env :=
  { env0 with
    boundary := lit "0123456789abcdef0123456789abcdef0123456789abcdef0123456789ab"
    rangeOrder := List.reverse }

/-- The surroundings of `env0` with a MIME table that knows `.zip` only. -/
def envZip : Env :=
  { env0 with
    mimeTable := fun e => if e = lit "zip" then lit "application/zip" else [] }

/-- An email without recipients. -/
def emailNoRecipient : Email :=
  Email.literal
    { To := [], Subject := lit "Hi", Body := lit "Hello" }

/-- The example email of the specification. -/
def emailHi : Email :=
  Email.literal
    { To := [lit "a@x.com"], Subject := lit "Hi", Body := lit "Hello" }

/-- An email with one attachment and a reply-to address. -/
def emailReplyTo : Email :=
  Email.literal
    { To := [lit "a@x.com"], Subject := lit "Hi", Body := lit "Hello", ReplyTo := lit "r@x.com",
      Attachments := [{ Filename := lit "f.txt", Content := lit "data", MimeType := [] }] }

/-- A valid email with every field set and two attachments. -/
def emailFull : Email :=
  Email.literal
    { To := [lit "a@x.com", lit "b@y.org"], Cc := [lit "c@z.net"], Bcc := [lit "d@w.io"],
      Subject := lit "Hi", Body := lit "<p>Hello</p>\r\n--not the boundary\r\n", IsHTML := true,
      From := lit "me@x.com", ReplyTo := lit "r@x.com",
      Attachments := [{ Filename := lit "f.txt", Content := lit "data", MimeType := [] },
        { Filename := lit "g.bin", Content := [0, 255, 3, 4, 200], MimeType := lit "x/y" }] }

/-- A valid email whose body has a line that is the delimiter of `env0`. -/
def emailDelimiterInBody : Email :=
  Email.literal
    { To := [lit "a@x.com"], Subject := lit "Hi",
      Body := lit "x\r\n--" ++ env0.boundary ++ lit "\r\ny",
      Attachments := [{ Filename := lit "f.txt", Content := lit "data", MimeType := [] }] }

/-- A valid email with an attachment whose file name holds an empty line. -/
def emailBreakInFilename : Email :=
  Email.literal
    { To := [lit "a@x.com"], Subject := lit "Hi", Body := lit "Hello",
      Attachments := [{ Filename := lit "a\r\n\r\nb", Content := lit "data", MimeType := [] }] }

/-- A valid email whose only recipient string holds a comma and a blank. -/
def emailCommaTo : Email :=
  Email.literal
    { To := [lit "a@x.com, b@y.com"], Subject := lit "Hi", Body := lit "Hello" }

/-- A valid email whose subject holds an empty line. -/
def emailBreakInSubject : Email :=
  Email.literal
    { To := [lit "a@x.com"], Subject := lit "Hi\r\n\r\nX", Body := lit "Hello" }

/-- A valid-looking email whose three address lists are windows on one backing
array `b = ["a@x.com", "bad", "c@z.net"]`: `To = b[0:1]`, `Cc = b[2:3]`,
`Bcc = b[1:2]`. -/
def emailAliased : Email :=
  { mem :=
      { cells := fun a i => if a = 0 then [lit "a@x.com", lit "bad", lit "c@z.net"].getD i [] else []
        next := 1
        growCap := fun _ n => n }
    toSlice := { array := 0, offset := 0, len := 1, cap := 3 }
    ccSlice := { array := 0, offset := 2, len := 1, cap := 1 }
    bccSlice := { array := 0, offset := 1, len := 1, cap := 2 }
    Subject := lit "Hi", Body := lit "Hello" }

/-- A mail service that accepts every message. -/
def serviceOk : MailService := { Send := fun _ => .ok (lit "id1", lit "thread1") }

/-- A file system without any file. -/
def fsEmpty : FS := { StatNotExist := fun _ => true, Read := fun _ => .error (lit "no such file") }

/-- Libraries that accept everything. -/
def extUnit : Externals Unit Unit Unit :=
  { decodeToken := fun _ => .ok (), ConfigFromJSON := fun _ _ => .ok (),
    NewService := fun _ _ => .ok () }

/-- A configuration without a token file. -/
def cfgNoToken : Config := { CredentialsFile := lit "c.json", TokenFile := [], Scopes := [] }

/-! ## Lemmas on strings -/

theorem hasPrefix_iff (s p : Str) : hasPrefix s p = true ↔ p <+: s := by
  induction p generalizing s with
  | nil => simp [hasPrefix]
  | cons d p ih =>
    cases s with
    | nil => simp [hasPrefix]
    | cons c s =>
      simp only [hasPrefix, Bool.and_eq_true, beq_iff_eq, ih, List.cons_prefix_cons]
      constructor
      · rintro ⟨h, h2⟩; exact ⟨h.symm, h2⟩
      · rintro ⟨h, h2⟩; exact ⟨h.symm, h2⟩

theorem stringsContains_iff (s p : Str) : stringsContains s p = true ↔ p <:+: s := by
  induction s with
  | nil =>
    cases p <;> simp [stringsContains, hasPrefix]
  | cons c s ih =>
    simp only [stringsContains, Bool.or_eq_true, hasPrefix_iff, ih, List.infix_cons_iff]

theorem stringsContains_single (s : Str) (c : Byte) :
    stringsContains s [c] = true ↔ c ∈ s := by
  rw [stringsContains_iff]
  constructor
  · rintro ⟨a, b, h⟩
    rw [← h]; simp
  · intro h
    obtain ⟨a, b, rfl⟩ := List.append_of_mem h
    exact ⟨a, b, by simp⟩

theorem lit_at : lit "@" = [64] := by decide

theorem hasPrefix_append_self (p Y : Str) : hasPrefix (p ++ Y) p = true := by
  rw [hasPrefix_iff]; exact List.prefix_append p Y

theorem hasPrefix_cons_ne (c d : Byte) (s r : Str) (h : c ≠ d) :
    hasPrefix (c :: s) (d :: r) = false := by
  simp [hasPrefix, h]

theorem cutPrefix_append (p v : Str) : cutPrefix (p ++ v) p = some v := by
  simp [cutPrefix, hasPrefix_append_self]

theorem CRLF_eq : CRLF = (13 : Byte) :: [10] := rfl

theorem length_pos_eq (l : List Str) : (l.length > 0) = (l ≠ []) := by
  cases l <;> simp

/-! ## Lemmas on slices and validation -/

theorem Slice.length_elems (s : Slice) (m : Memory) : (s.elems m).length = s.len := by
  simp [Slice.elems]

theorem Slice.elems_eq_nil (s : Slice) (m : Memory) : s.elems m = [] ↔ s.len = 0 := by
  rw [← List.length_eq_zero, Slice.length_elems]

/-- The slice `append` returns holds the old elements followed by the new. -/
theorem goAppend_elems (m : Memory) (s : Slice) (xs : List Str) :
    (goAppend m s xs).2.elems (goAppend m s xs).1 = s.elems m ++ xs := by
  unfold goAppend
  split_ifs with h
  · apply List.ext_getElem
    · simp [Slice.elems]
    · intro i h1 h2
      simp only [Slice.elems, List.length_map, List.length_range] at h1
      simp only [Slice.elems, Memory.store, List.getElem_map, List.getElem_range, true_and]
      by_cases hi : i < s.len
      · rw [List.getElem_append_left (by simpa using hi)]
        simp only [List.getElem_map, List.getElem_range]
        rw [if_neg (by omega)]
      · rw [List.getElem_append_right (by simpa using hi)]
        simp only [List.length_map, List.length_range]
        rw [if_pos (by omega)]
        have e : s.offset + i - (s.offset + s.len) = i - s.len := by omega
        rw [e, List.getD_eq_getElem _ _ (by omega)]
  · apply List.ext_getElem
    · simp [Slice.elems]
    · intro i h1 h2
      simp only [Slice.elems, List.length_map, List.length_range] at h1
      simp only [Slice.elems, Memory.store, List.getElem_map, List.getElem_range, true_and,
        Nat.zero_add, Nat.zero_le, Nat.sub_zero]
      rw [if_pos (by simpa [Slice.elems] using h1)]
      rw [List.getD_eq_getElem _ _ (by simpa [Slice.elems] using h1)]

/-- The addresses the loop of `validateEmail` visits: `To`, `Cc`, and `Bcc` as
it reads after the first `append`. -/
theorem validateEmail_visits (email : Email) :
    validateEmail email ≠ none ↔
      (email.To = [] ∨ email.Subject = [] ∨ email.Body = [] ∨
        ∃ a ∈ email.To ++ email.Cc ++
            email.bccSlice.elems (goAppend email.mem email.toSlice email.Cc).1,
          (64 : Byte) ∉ a) := by
  unfold validateEmail GmailClient.validateEmail
  by_cases hTo : email.To = []
  · have : email.toSlice.len = 0 := (Slice.elems_eq_nil _ _).mp hTo
    simp [hTo, this]
  have hlen : ¬ email.toSlice.len = 0 := fun h => hTo ((Slice.elems_eq_nil _ _).mpr h)
  by_cases hS : email.Subject = []
  · simp [hS, hlen]
  by_cases hB : email.Body = []
  · simp [hB, hS, hlen]
  simp only [hlen, hS, hB, hTo, if_false, false_or, lit_at, goAppend_elems]
  have e : email.toSlice.elems email.mem ++ email.ccSlice.elems email.mem ++
      email.bccSlice.elems (goAppend email.mem email.toSlice (email.ccSlice.elems email.mem)).1 =
      email.To ++ email.Cc ++
        email.bccSlice.elems (goAppend email.mem email.toSlice email.Cc).1 := rfl
  rw [e]
  cases hf : (email.To ++ email.Cc ++
      email.bccSlice.elems (goAppend email.mem email.toSlice email.Cc).1).find?
      (fun emailAddr => !stringsContains emailAddr [64]) with
  | none =>
    simp only [ne_eq, not_true_eq_false, false_iff, not_exists, not_and, not_not]
    intro a ha
    have := List.find?_eq_none.mp hf a ha
    simpa [stringsContains_single] using this
  | some a =>
    simp only [ne_eq, reduceCtorEq, not_false_eq_true, true_iff]
    refine ⟨a, List.mem_of_find?_eq_some hf, ?_⟩
    have h1 := List.find?_some hf
    intro h2
    rw [← stringsContains_single] at h2
    simp [h2] at h1

/-- Where the first `append` leaves the cells of `Bcc` alone (`Cc` is empty,
or `Bcc` lies in another array than `To` and than the one allocated next),
`validateEmail` checks exactly `To ++ Cc ++ Bcc`. -/
theorem validateEmail_error_iff_of_apart (email : Email)
    (h : (email.Cc = [] ∧ email.toSlice.len ≤ email.toSlice.cap) ∨
      (email.bccSlice.array ≠ email.toSlice.array ∧ email.bccSlice.array ≠ email.mem.next)) :
    validateEmail email ≠ none ↔
      (email.To = [] ∨ email.Subject = [] ∨ email.Body = [] ∨
        ∃ a ∈ email.To ++ email.Cc ++ email.Bcc, (64 : Byte) ∉ a) := by
  rw [validateEmail_visits]
  have e : email.bccSlice.elems (goAppend email.mem email.toSlice email.Cc).1 = email.Bcc := by
    unfold Email.Bcc Slice.elems
    apply List.map_congr_left
    intro i _
    rcases h with ⟨h, hc⟩ | ⟨h1, h2⟩
    · rw [h]
      unfold goAppend
      split_ifs with hh
      · simp [Memory.store]
      · exact absurd (by simpa using hc) hh
    · unfold goAppend
      split_ifs
      · simp [Memory.store, h1]
      · simp [Memory.store, h2]
  rw [e]

theorem map_range_getD (l : List Str) :
    (List.range l.length).map (fun i => l.getD i []) = l := by
  apply List.ext_getElem
  · simp
  · intro i h1 h2
    simp only [List.getElem_map, List.getElem_range]
    exact List.getD_eq_getElem _ _ h2

theorem Email.literal_fields (l : EmailLit) :
    (Email.literal l).To = l.To ∧ (Email.literal l).Cc = l.Cc ∧ (Email.literal l).Bcc = l.Bcc := by
  refine ⟨?_, ?_, ?_⟩
  · simpa [Email.To, Email.literal, Slice.elems] using map_range_getD l.To
  · simpa [Email.Cc, Email.literal, Slice.elems] using map_range_getD l.Cc
  · simpa [Email.Bcc, Email.literal, Slice.elems] using map_range_getD l.Bcc

/-- For the email of a composite literal, `validateEmail` returns an error
exactly when `To`, `Subject` or `Body` is empty or some address of
`To ++ Cc ++ Bcc` has no `@`. -/
theorem validateEmail_literal_iff (l : EmailLit) :
    validateEmail (Email.literal l) ≠ none ↔
      (l.To = [] ∨ l.Subject = [] ∨ l.Body = [] ∨
        ∃ a ∈ l.To ++ l.Cc ++ l.Bcc, (64 : Byte) ∉ a) := by
  obtain ⟨e1, e2, e3⟩ := Email.literal_fields l
  rw [validateEmail_error_iff_of_apart _ (Or.inr ⟨by simp [Email.literal], by simp [Email.literal]⟩),
    e1, e2, e3]
  rfl

theorem validateEmail_to_ne_nil (email : Email) (h : validateEmail email = none) :
    email.To ≠ [] := by
  intro hTo
  have : email.toSlice.len = 0 := (Slice.elems_eq_nil _ _).mp hTo
  simp [validateEmail, GmailClient.validateEmail, this] at h

theorem validateEmail_message_ne_nil (email : Email) (err : Str)
    (h : validateEmail email = some err) : err ≠ [] := by
  unfold validateEmail GmailClient.validateEmail at h
  split_ifs at h
  · cases h; decide
  · cases h; decide
  · cases h; decide
  · simp only at h
    split at h
    · cases h
      simp [lit]
    · cases h

/-! ## Lemmas on base64 -/

set_option maxRecDepth 100000 in
theorem goodAlphabet_std : GoodAlphabet encodeStd := by decide

set_option maxRecDepth 100000 in
theorem goodAlphabet_url : GoodAlphabet encodeURL := by decide

theorem and63 (x : Nat) : x &&& 0x3F = x % 64 := Nat.and_pow_two_sub_one_eq_mod x 6

theorem or_low (x c n : Nat) (h : c < 2 ^ n) : x * 2 ^ n ||| c = x * 2 ^ n + c := by
  rw [Nat.mul_comm]; exact (Nat.mul_add_lt_is_or h x).symm

theorem val3_eq (a b c : Nat) (hb : b < 256) (hc : c < 256) :
    a <<< 16 ||| b <<< 8 ||| c = a * 65536 + b * 256 + c := by
  have h1 : a <<< 16 ||| b <<< 8 = (a * 256 + b) * 2 ^ 8 := by
    rw [Nat.shiftLeft_eq, Nat.shiftLeft_eq, or_low a (b * 2 ^ 8) 16 (by omega)]
    omega
  rw [h1, or_low _ c 8 (by omega)]
  omega

theorem val4_eq (d0 d1 d2 d3 : Nat) (h1 : d1 < 64) (h2 : d2 < 64) (h3 : d3 < 64) :
    d0 <<< 18 ||| d1 <<< 12 ||| d2 <<< 6 ||| d3 =
      d0 * 262144 + d1 * 4096 + d2 * 64 + d3 := by
  have e1 : d0 <<< 18 ||| d1 <<< 12 = (d0 * 64 + d1) * 2 ^ 12 := by
    rw [Nat.shiftLeft_eq, Nat.shiftLeft_eq, or_low d0 (d1 * 2 ^ 12) 18 (by omega)]
    omega
  have e2 : (d0 * 64 + d1) * 2 ^ 12 ||| d2 <<< 6 = ((d0 * 64 + d1) * 64 + d2) * 2 ^ 6 := by
    rw [Nat.shiftLeft_eq, or_low _ (d2 * 2 ^ 6) 12 (by omega)]
    omega
  rw [e1, e2, or_low _ d3 6 (by omega)]
  omega

theorem encAt_good {encode : Str} (h : GoodAlphabet encode) (i : Nat) (hi : i < 64) :
    decodeMap encode (encAt encode i) = some i ∧ encAt encode i ≠ StdPadding :=
  h ⟨i, hi⟩

/-- Decoding inverts encoding, over any good alphabet. -/
theorem DecodeString_EncodeToString {encode : Str} (h : GoodAlphabet encode) (src : List Byte) :
    DecodeString encode (EncodeToString encode src) = some src := by
  induction src using EncodeToString.induct encode with
  | case1 a b c rest ih =>
    obtain ⟨a, ha⟩ := a
    obtain ⟨b, hb⟩ := b
    obtain ⟨c, hc⟩ := c
    simp only [EncodeToString, and63, Nat.shiftRight_eq_div_pow, val3_eq a b c hb hc]
    have g0 := encAt_good h ((a * 65536 + b * 256 + c) / 2 ^ 18 % 64) (Nat.mod_lt _ (by decide))
    have g1 := encAt_good h ((a * 65536 + b * 256 + c) / 2 ^ 12 % 64) (Nat.mod_lt _ (by decide))
    have g2 := encAt_good h ((a * 65536 + b * 256 + c) / 2 ^ 6 % 64) (Nat.mod_lt _ (by decide))
    have g3 := encAt_good h ((a * 65536 + b * 256 + c) % 64) (Nat.mod_lt _ (by decide))
    simp only [DecodeString, g3.2, if_false, g0.1, g1.1, g2.1, g3.1, ih, Option.bind_eq_bind,
      Option.some_bind, Option.pure_def, Option.some.injEq, List.cons.injEq, and_true]
    rw [val4_eq _ _ _ _ (Nat.mod_lt _ (by decide)) (Nat.mod_lt _ (by decide))
      (Nat.mod_lt _ (by decide))]
    simp only [toByte, Nat.shiftRight_eq_div_pow, Fin.mk.injEq]
    refine ⟨?_, ?_, ?_⟩ <;> omega
  | case2 a b =>
    obtain ⟨a, ha⟩ := a
    obtain ⟨b, hb⟩ := b
    have hv : a <<< 16 ||| b <<< 8 = a * 65536 + b * 256 := by
      rw [Nat.shiftLeft_eq, Nat.shiftLeft_eq, or_low a (b * 2 ^ 8) 16 (by omega)]
      omega
    simp only [EncodeToString, and63, Nat.shiftRight_eq_div_pow, hv]
    have g0 := encAt_good h ((a * 65536 + b * 256) / 2 ^ 18 % 64) (Nat.mod_lt _ (by decide))
    have g1 := encAt_good h ((a * 65536 + b * 256) / 2 ^ 12 % 64) (Nat.mod_lt _ (by decide))
    have g2 := encAt_good h ((a * 65536 + b * 256) / 2 ^ 6 % 64) (Nat.mod_lt _ (by decide))
    have e : ∀ d0 d1 d2 : Nat, d1 < 64 → d2 < 64 →
        d0 <<< 18 ||| d1 <<< 12 ||| d2 <<< 6 = d0 * 262144 + d1 * 4096 + d2 * 64 := by
      intro d0 d1 d2 h1 h2
      have e1 : d0 <<< 18 ||| d1 <<< 12 = (d0 * 64 + d1) * 2 ^ 12 := by
        rw [Nat.shiftLeft_eq, Nat.shiftLeft_eq, or_low d0 (d1 * 2 ^ 12) 18 (by omega)]
        omega
      rw [e1, Nat.shiftLeft_eq, or_low _ (d2 * 2 ^ 6) 12 (by omega)]
      omega
    simp only [DecodeString, g2.2, if_true, if_false, g0.1, g1.1, g2.1, Option.bind_eq_bind,
      Option.some_bind, Option.pure_def, Option.some.injEq, List.cons.injEq, and_true, ne_eq,
      not_true_eq_false]
    rw [e _ _ _ (Nat.mod_lt _ (by decide)) (Nat.mod_lt _ (by decide))]
    simp only [toByte, Nat.shiftRight_eq_div_pow, Fin.mk.injEq]
    refine ⟨?_, ?_⟩ <;> omega
  | case3 a =>
    obtain ⟨a, ha⟩ := a
    simp only [EncodeToString, and63, Nat.shiftRight_eq_div_pow, Nat.shiftLeft_eq]
    have g0 := encAt_good h (a * 2 ^ 16 / 2 ^ 18 % 64) (Nat.mod_lt _ (by decide))
    have g1 := encAt_good h (a * 2 ^ 16 / 2 ^ 12 % 64) (Nat.mod_lt _ (by decide))
    have e : ∀ d0 d1 : Nat, d1 < 64 → d0 <<< 18 ||| d1 <<< 12 = d0 * 262144 + d1 * 4096 := by
      intro d0 d1 h1
      rw [Nat.shiftLeft_eq, Nat.shiftLeft_eq, or_low d0 (d1 * 2 ^ 12) 18 (by omega)]
      omega
    simp only [DecodeString, if_true, g0.1, g1.1, Option.bind_eq_bind,
      Option.some_bind, Option.pure_def, Option.some.injEq, List.cons.injEq, and_true, ne_eq,
      not_true_eq_false, if_false]
    rw [e _ _ (Nat.mod_lt _ (by decide))]
    simp only [toByte, Nat.shiftRight_eq_div_pow, Fin.mk.injEq]
    omega
  | case4 => simp [EncodeToString, DecodeString]

theorem EncodeToString_injective {encode : Str} (h : GoodAlphabet encode) (a b : List Byte)
    (hab : EncodeToString encode a = EncodeToString encode b) : a = b := by
  have := DecodeString_EncodeToString h a
  rw [hab, DecodeString_EncodeToString h b] at this
  exact (Option.some.inj this).symm

set_option maxRecDepth 100000 in
theorem encAt_url_safe : ∀ i : Fin 64, isUrlSafeChar (encAt encodeURL i.val) = true := by
  decide

/-- The shape of an encoding: characters of the alphabet, then at most two
padding characters, a multiple of four in all. -/
theorem EncodeToString_shape (encode : Str) (src : List Byte) :
    (EncodeToString encode src).length % 4 = 0 ∧
    ∃ body pad, EncodeToString encode src = body ++ pad ∧
      (∀ c ∈ body, ∃ i : Fin 64, c = encAt encode i.val) ∧
      (pad = [] ∨ pad = [StdPadding] ∨ pad = [StdPadding, StdPadding]) := by
  induction src using EncodeToString.induct encode with
  | case1 a b c rest ih =>
    obtain ⟨hl, body, pad, he, hb, hp⟩ := ih
    simp only [EncodeToString, and63]
    refine ⟨by simp only [List.length_cons]; omega, _ :: _ :: _ :: _ :: body, pad, by rw [he]; rfl, ?_, hp⟩
    intro x hx
    simp only [List.mem_cons] at hx
    rcases hx with rfl | rfl | rfl | rfl | hx
    · exact ⟨⟨_, Nat.mod_lt _ (by decide)⟩, rfl⟩
    · exact ⟨⟨_, Nat.mod_lt _ (by decide)⟩, rfl⟩
    · exact ⟨⟨_, Nat.mod_lt _ (by decide)⟩, rfl⟩
    · exact ⟨⟨_, Nat.mod_lt _ (by decide)⟩, rfl⟩
    · exact hb x hx
  | case2 a b =>
    simp only [EncodeToString, and63]
    refine ⟨by simp, [_, _, _], [StdPadding], rfl, ?_, Or.inr (Or.inl rfl)⟩
    intro x hx
    simp only [List.mem_cons, List.mem_singleton, List.not_mem_nil, or_false] at hx
    rcases hx with rfl | rfl | rfl
    · exact ⟨⟨_, Nat.mod_lt _ (by decide)⟩, rfl⟩
    · exact ⟨⟨_, Nat.mod_lt _ (by decide)⟩, rfl⟩
    · exact ⟨⟨_, Nat.mod_lt _ (by decide)⟩, rfl⟩
  | case3 a =>
    simp only [EncodeToString, and63]
    refine ⟨by simp, [_, _], [StdPadding, StdPadding], rfl, ?_, Or.inr (Or.inr rfl)⟩
    intro x hx
    simp only [List.mem_cons, List.mem_singleton, List.not_mem_nil, or_false] at hx
    rcases hx with rfl | rfl
    · exact ⟨⟨_, Nat.mod_lt _ (by decide)⟩, rfl⟩
    · exact ⟨⟨_, Nat.mod_lt _ (by decide)⟩, rfl⟩
  | case4 =>
    exact ⟨rfl, [], [], rfl, by simp, Or.inl rfl⟩

set_option maxRecDepth 100000 in
theorem encAt_std_plain : ∀ i : Fin 64, encAt encodeStd i.val ≠ 13 ∧ encAt encodeStd i.val ≠ 45 := by
  decide

theorem EncodeToString_std_plain (src : List Byte) :
    ∀ c ∈ EncodeToString encodeStd src, c ≠ 13 ∧ c ≠ 45 := by
  obtain ⟨_, body, pad, he, hb, hp⟩ := EncodeToString_shape encodeStd src
  intro c hc
  rw [he, List.mem_append] at hc
  rcases hc with hc | hc
  · obtain ⟨i, rfl⟩ := hb c hc
    exact encAt_std_plain i
  · rcases hp with rfl | rfl | rfl
    · simp at hc
    · simp only [List.mem_singleton] at hc; subst hc; decide
    · simp only [List.mem_cons, List.mem_singleton, List.not_mem_nil, or_false, or_self] at hc
      subst hc; decide

/-! ## Lemmas on splitting and joining -/

theorem splitFrom_ne_nil (sep s : Str) (k : Nat) : splitFrom sep s k ≠ [] := by
  induction s generalizing k with
  | nil => simp [splitFrom]
  | cons c s ih =>
    cases k with
    | succ k => simpa [splitFrom] using ih k
    | zero =>
      simp only [splitFrom]
      split_ifs
      · simp
      · split <;> simp

theorem splitFrom_skip (sep A Y : Str) : splitFrom sep (A ++ Y) A.length = splitFrom sep Y 0 := by
  induction A with
  | nil => rfl
  | cons a A ih => simpa [splitFrom] using ih

theorem stringsSplit_sep (sep Y : Str) (hne : sep ≠ []) :
    stringsSplit (sep ++ Y) sep = [] :: stringsSplit Y sep := by
  obtain ⟨c, r, rfl⟩ := List.exists_cons_of_ne_nil hne
  have hp := hasPrefix_append_self (c :: r) Y
  rw [List.cons_append] at hp
  unfold stringsSplit
  rw [List.cons_append, splitFrom, if_pos hp]
  simp only [List.length_cons, Nat.add_sub_cancel, splitFrom_skip]

theorem stringsSplit_cons (sep s : Str) (c : Byte) (h : hasPrefix (c :: s) sep = false) :
    ∃ p ps, stringsSplit s sep = p :: ps ∧ stringsSplit (c :: s) sep = (c :: p) :: ps := by
  cases hs : splitFrom sep s 0 with
  | nil => exact absurd hs (splitFrom_ne_nil sep s 0)
  | cons p ps =>
    refine ⟨p, ps, hs, ?_⟩
    simp [stringsSplit, splitFrom, h, hs]

theorem NoOcc.tail {sep Z : Str} {x : Byte} {X : Str} (h : NoOcc sep (x :: X) Z) :
    NoOcc sep X Z := by
  intro T hT hs
  exact h T hT (hs.trans (List.suffix_cons x X))

theorem stringsSplit_append (sep X Y : Str) (hne : sep ≠ []) (h : NoOcc sep X (sep ++ Y)) :
    stringsSplit (X ++ sep ++ Y) sep = X :: stringsSplit Y sep := by
  induction X with
  | nil => simpa using stringsSplit_sep sep Y hne
  | cons x X ih =>
    have h1 : hasPrefix (x :: (X ++ sep ++ Y)) sep = false := by
      have := h (x :: X) (by simp) (List.suffix_refl _)
      simpa [List.append_assoc] using this
    obtain ⟨p, ps, e1, e2⟩ := stringsSplit_cons sep (X ++ sep ++ Y) x h1
    rw [ih h.tail] at e1
    simp only [List.cons.injEq] at e1
    simp only [List.cons_append]
    rw [e2, ← e1.1, ← e1.2]

theorem stringsSplit_noOcc (sep X : Str) (h : NoOcc sep X []) :
    stringsSplit X sep = [X] := by
  induction X with
  | nil => simp [stringsSplit, splitFrom]
  | cons x X ih =>
    have h1 : hasPrefix (x :: X) sep = false := by
      simpa using h (x :: X) (by simp) (List.suffix_refl _)
    obtain ⟨p, ps, e1, e2⟩ := stringsSplit_cons sep X x h1
    rw [ih h.tail] at e1
    simp only [List.cons.injEq] at e1
    rw [e2, ← e1.1, ← e1.2]

theorem stringsJoin_cons_cons (c : Byte) (p : Str) (ps : List Str) (sep : Str) :
    stringsJoin ((c :: p) :: ps) sep = c :: stringsJoin (p :: ps) sep := by
  cases ps <;> simp [stringsJoin]

theorem stringsJoin_splitFrom (sep s : Str) (k : Nat) (hne : sep ≠ []) :
    stringsJoin (splitFrom sep s k) sep = s.drop k := by
  induction s generalizing k with
  | nil => simp [splitFrom, stringsJoin]
  | cons c s ih =>
    cases k with
    | succ k => simpa [splitFrom] using ih k
    | zero =>
      simp only [splitFrom, List.drop_zero]
      split_ifs with hp
      · rw [hasPrefix_iff] at hp
        obtain ⟨rest, hrest⟩ := hp
        cases hsp : splitFrom sep s (sep.length - 1) with
        | nil => exact absurd hsp (splitFrom_ne_nil _ _ _)
        | cons q qs =>
          have := ih (sep.length - 1)
          rw [hsp] at this
          simp only [stringsJoin, List.nil_append]
          rw [this]
          cases sep with
          | nil => exact absurd rfl hne
          | cons d r =>
            simp only [List.cons_append, List.cons.injEq] at hrest
            obtain ⟨rfl, hs⟩ := hrest
            simp [← hs]
      · cases hsp : splitFrom sep s 0 with
        | nil => exact absurd hsp (splitFrom_ne_nil _ _ _)
        | cons q qs =>
          have := ih 0
          rw [hsp] at this
          simp only [stringsJoin_cons_cons, this, List.drop_zero]

theorem stringsJoin_stringsSplit (s sep : Str) (hne : sep ≠ []) :
    stringsJoin (stringsSplit s sep) sep = s := by
  simpa [stringsSplit] using stringsJoin_splitFrom sep s 0 hne

theorem NoOcc.of_head_not_mem {c : Byte} {r X : Str} (Z : Str) (h : c ∉ X) :
    NoOcc (c :: r) X Z := by
  intro T hT hs
  obtain ⟨t, T, rfl⟩ := List.exists_cons_of_ne_nil hT
  have ht : t ∈ X := hs.subset (by simp)
  have : t ≠ c := fun e => h (e ▸ ht)
  simpa using hasPrefix_cons_ne t c (T ++ Z) r this

theorem NoOcc.of_not_infix_nil {sep X : Str} (h : ¬ sep <:+: X) : NoOcc sep X [] := by
  intro T _ hs
  rw [List.append_nil]
  by_contra hp
  rw [Bool.not_eq_false, hasPrefix_iff] at hp
  exact h (hp.isInfix.trans hs.isInfix)

theorem NoOcc.of_not_infix {c : Byte} {r X : Str} (Y : Str) (hc : c ∉ r)
    (h : ¬ (c :: r) <:+: X) : NoOcc (c :: r) X ((c :: r) ++ Y) := by
  intro T hT hs
  by_contra hp
  rw [Bool.not_eq_false, hasPrefix_iff] at hp
  rcases List.prefix_or_prefix_of_prefix hp (List.prefix_append T _) with h1 | h1
  · exact h (h1.isInfix.trans hs.isInfix)
  · obtain ⟨U, hU⟩ := h1
    rw [← hU, List.prefix_append_right_inj] at hp
    obtain ⟨t, T, rfl⟩ := List.exists_cons_of_ne_nil hT
    simp only [List.cons_append, List.cons.injEq] at hU
    obtain ⟨rfl, hr⟩ := hU
    cases U with
    | nil =>
      apply h
      rw [List.append_nil] at hr
      rw [← hr]
      exact hs.isInfix
    | cons u U =>
      have hu : u = t := by
        simp only [List.cons_append, List.cons_prefix_cons] at hp
        exact hp.1
      apply hc
      rw [← hr, hu]
      simp

theorem infix_append_of_head_not_mem {c : Byte} {r A : Str} (W : Str) (h : c ∉ A) :
    (c :: r) <:+: A ++ W ↔ (c :: r) <:+: W := by
  induction A with
  | nil => simp
  | cons a A ih =>
    simp only [List.mem_cons, not_or] at h
    rw [List.cons_append, List.infix_cons_iff, ih h.2]
    constructor
    · rintro (hp | hi)
      · rw [List.cons_prefix_cons] at hp
        exact absurd hp.1 h.1
      · exact hi
    · exact fun hi => Or.inr hi

theorem stringsSplit_stringsJoin (l : List Str) (c : Byte) (r : Str) (hc : c ∉ r)
    (hne : l ≠ []) (h : ∀ a ∈ l, ¬ (c :: r) <:+: a) :
    stringsSplit (stringsJoin l (c :: r)) (c :: r) = l := by
  induction l with
  | nil => exact absurd rfl hne
  | cons a l ih =>
    cases l with
    | nil =>
      simp only [stringsJoin]
      exact stringsSplit_noOcc _ _ (NoOcc.of_not_infix_nil (h a (by simp)))
    | cons b l =>
      simp only [stringsJoin]
      rw [stringsSplit_append _ _ _ (by simp) (NoOcc.of_not_infix _ hc (h a (by simp))),
        ih (by simp) (fun x hx => h x (by simp [hx]))]

theorem stringsSplit_pieces (sep : Str) (xs : List Str) (last : Str) (hne : sep ≠ [])
    (hx : ∀ x ∈ xs, ∀ Y, NoOcc sep x (sep ++ Y)) (hl : NoOcc sep last []) :
    stringsSplit ((xs.map (fun x => x ++ sep)).flatten ++ last) sep = xs ++ [last] := by
  induction xs with
  | nil => simpa using stringsSplit_noOcc sep last hl
  | cons x xs ih =>
    simp only [List.map_cons, List.flatten_cons, List.cons_append]
    rw [List.append_assoc, stringsSplit_append sep x _ hne (hx x (by simp) _),
      ih (fun y hy => hx y (by simp [hy]))]

theorem stringsSplit_lines (lines : List Str) (rest : Str) (h : ∀ l ∈ lines, (13 : Byte) ∉ l) :
    stringsSplit ((lines.map (fun l => l ++ CRLF)).flatten ++ rest) CRLF =
      lines ++ stringsSplit rest CRLF := by
  induction lines with
  | nil => simp
  | cons l ls ih =>
    simp only [List.map_cons, List.flatten_cons, List.append_assoc, List.cons_append]
    rw [← List.append_assoc l CRLF, stringsSplit_append CRLF l _ (by decide)
      (NoOcc.of_head_not_mem _ (h l (by simp))), ih (fun x hx => h x (by simp [hx]))]

/-! ## Lemmas on the composed text -/

theorem sort_attachment_keys :
    sortStrings [lit "Content-Type", lit "Content-Disposition", lit "Content-Transfer-Encoding"] =
      [lit "Content-Disposition", lit "Content-Transfer-Encoding", lit "Content-Type"] := by
  decide

theorem addAttachment_eq (env : Env) (w : Writer) (a : Attachment) :
    addAttachment env w a = .ok
      { w := w.w ++ ((if w.lastpart then CRLF ++ lit "--" ++ w.boundary ++ CRLF
          else lit "--" ++ w.boundary ++ CRLF) ++ attachmentPart env a)
        boundary := w.boundary
        lastpart := true } := by
  have k1 : (lit "Content-Type" == lit "Content-Disposition") = false := by decide
  have k2 : (lit "Content-Type" == lit "Content-Transfer-Encoding") = false := by decide
  have k3 : (lit "Content-Disposition" == lit "Content-Transfer-Encoding") = false := by decide
  have k4 : (lit "Content-Disposition" == lit "Content-Type") = false := by decide
  have k5 : (lit "Content-Transfer-Encoding" == lit "Content-Type") = false := by decide
  have k6 : (lit "Content-Transfer-Encoding" == lit "Content-Disposition") = false := by decide
  simp only [addAttachment, MIMEHeader.Set, List.any_nil, Bool.false_eq_true, if_false,
    List.nil_append, List.any_cons, k1, k2, k3, Bool.or_false, List.cons_append,
    Writer.CreatePart, List.map_cons, List.map_nil, sort_attachment_keys, List.lookup,
    k4, k5, k6, beq_self_eq_true, Option.getD_some, List.flatten_cons, List.flatten_nil,
    List.append_nil, Writer.partWrite, attachmentPart, List.append_assoc]
  rw [show lit "Content-Disposition: attachment; filename=" =
      lit "Content-Disposition" ++ (lit ": " ++ lit "attachment; filename=") from by decide,
    show lit "Content-Transfer-Encoding: base64" =
      lit "Content-Transfer-Encoding" ++ (lit ": " ++ lit "base64") from by decide,
    show lit "Content-Type: " = lit "Content-Type" ++ lit ": " from by decide]
  simp only [List.append_assoc]

theorem addAttachments_eq (env : Env) (atts : List Attachment) (w : Writer)
    (hl : w.lastpart = true) :
    addAttachments env w atts = .ok
      { w := w.w ++ (atts.map (fun a =>
          CRLF ++ lit "--" ++ w.boundary ++ CRLF ++ attachmentPart env a)).flatten
        boundary := w.boundary
        lastpart := true } := by
  induction atts generalizing w with
  | nil =>
    cases w
    simp only [addAttachments, List.map_nil, List.flatten_nil, List.append_nil]
    simp only at hl
    rw [hl]
  | cons a rest ih =>
    simp only [addAttachments, addAttachment_eq, hl, if_true]
    rw [ih _ rfl]
    simp only [List.map_cons, List.flatten_cons, List.append_assoc]

theorem composeWithAttachments_eq (env : Env) (now : Time) (email : Email) :
    composeWithAttachments env now email = .ok
      (((attachmentsHeaderLines env now email).map (fun l => l ++ CRLF)).flatten ++ CRLF ++
        multipartBody env email) := by
  have hb : ∀ v : Str, MIMEHeader.Set [] (lit "Content-Type") v = [(lit "Content-Type", [v])] := by
    intro v; simp [MIMEHeader.Set]
  have hc : ∀ (w : Writer) (v : Str), w.CreatePart [(lit "Content-Type", [v])] = .ok
      { w := w.w ++ ((if w.lastpart then CRLF ++ lit "--" ++ w.boundary ++ CRLF
          else lit "--" ++ w.boundary ++ CRLF) ++ lit "Content-Type: " ++ v ++ CRLF ++ CRLF)
        boundary := w.boundary
        lastpart := true } := by
    intro w v
    simp only [Writer.CreatePart, List.map_cons, List.map_nil, sortStrings, insertSorted,
      List.lookup, beq_self_eq_true, Option.getD_some, List.flatten_cons, List.flatten_nil,
      List.append_nil, List.append_assoc]
    rw [show lit "Content-Type: " = lit "Content-Type" ++ lit ": " from by decide]
    simp only [List.append_assoc]
  unfold composeWithAttachments
  simp only [NewWriter, Writer.Boundary, List.nil_append]
  have e1 : lit "Content-Type: text/plain; charset=UTF-8" =
      lit "Content-Type: " ++ lit "text/plain; charset=UTF-8" := by decide
  have e2 : lit "Content-Type: text/html; charset=UTF-8" =
      lit "Content-Type: " ++ lit "text/html; charset=UTF-8" := by decide
  cases hH : email.IsHTML <;>
    simp only [hb, hc, Bool.false_eq_true, if_false, if_true, Writer.partWrite,
      addAttachments_eq, Writer.Close, attachmentsHeaderLines, multipartBody, bodyPart, hH,
      List.map_map, List.append_assoc, Except.ok.injEq, e1, e2, Function.comp_def]

theorem createMessage_eq (env : Env) (now : Time) (email : Email) :
    createMessage env now email =
      .ok { Raw := EncodeToString encodeURL (messageText env now email) } := by
  unfold createMessage messageText
  by_cases h : email.Attachments = []
  · simp [h]
  · have : email.Attachments.length > 0 := List.length_pos.mpr h
    simp only [this, if_true, h, if_false, createMessageWithAttachments,
      composeWithAttachments_eq]

theorem composeSimple_eq (env : Env) (now : Time) (email : Email) :
    composeSimple env now email =
      (((envelope email (env.formatRFC1123Z now) (textContentType email) true).map render).map
        (fun l => l ++ CRLF)).flatten ++ CRLF ++ email.Body := by
  have e1 : lit "To: " = lit "To" ++ lit ": " := by decide
  have e2 : lit "Cc: " = lit "Cc" ++ lit ": " := by decide
  have e3 : lit "Bcc: " = lit "Bcc" ++ lit ": " := by decide
  have e4 : lit "From: " = lit "From" ++ lit ": " := by decide
  have e5 : lit "Reply-To: " = lit "Reply-To" ++ lit ": " := by decide
  have e6 : lit "Subject: " = lit "Subject" ++ lit ": " := by decide
  have e7 : lit "Date: " = lit "Date" ++ lit ": " := by decide
  have e8 : lit "Content-Type: text/html; charset=UTF-8" =
      lit "Content-Type" ++ (lit ": " ++ lit "text/html; charset=UTF-8") := by decide
  have e9 : lit "Content-Type: text/plain; charset=UTF-8" =
      lit "Content-Type" ++ (lit ": " ++ lit "text/plain; charset=UTF-8") := by decide
  simp only [composeSimple, envelope, optHeader, textContentType, length_pos_eq, render,
    e1, e2, e3, e4, e5, e6, e7, e8, e9]
  by_cases h1 : email.Cc = [] <;> by_cases h2 : email.Bcc = [] <;>
    by_cases h3 : email.From = [] <;> by_cases h4 : email.ReplyTo = [] <;>
    cases h5 : email.IsHTML <;>
    simp [h1, h2, h3, h4, render]

set_option maxRecDepth 100000 in
theorem attachmentsHeader_eq (env : Env) (now : Time) (boundary : Str) (email : Email) :
    attachmentsHeader env now boundary email =
      (envelope email (env.formatRFC1123Z now) (lit "multipart/mixed; boundary=" ++ boundary)
        false).map (fun kv => (kv.1, [kv.2])) := by
  simp only [attachmentsHeader, envelope, optHeader, length_pos_eq]
  by_cases h1 : email.Cc = [] <;> by_cases h2 : email.Bcc = [] <;>
    by_cases h3 : email.From = [] <;>
    simp only [h1, h2, h3, ne_eq, not_true_eq_false, not_false_eq_true, if_true, if_false,
      decide_True, decide_False, Bool.false_and, Bool.false_eq_true, List.append_nil,
      List.map_cons, List.map_nil, List.map_append, List.singleton_append, List.cons_append,
      List.nil_append] <;>
    rfl

/-- The header map of the attachment path never has a `Reply-To` entry. -/
theorem attachmentsHeader_no_replyTo (env : Env) (now : Time) (boundary : Str) (email : Email) :
    ∀ kv ∈ attachmentsHeader env now boundary email, kv.1 ≠ lit "Reply-To" := by
  have hset : ∀ (h : MIMEHeader) (k v : Str), k ≠ lit "Reply-To" →
      (∀ kv ∈ h, kv.1 ≠ lit "Reply-To") → ∀ kv ∈ h.Set k v, kv.1 ≠ lit "Reply-To" := by
    intro h k v hk hh kv hkv
    unfold MIMEHeader.Set at hkv
    split_ifs at hkv
    · simp only [List.mem_map] at hkv
      obtain ⟨x, hx, rfl⟩ := hkv
      split_ifs
      · exact hk
      · exact hh x hx
    · simp only [List.mem_append, List.mem_singleton] at hkv
      rcases hkv with hkv | rfl
      · exact hh kv hkv
      · exact hk
  have hif : ∀ (c : Prop) [Decidable c] (h : MIMEHeader) (k v : Str), k ≠ lit "Reply-To" →
      (∀ kv ∈ h, kv.1 ≠ lit "Reply-To") →
      ∀ kv ∈ (if c then h.Set k v else h), kv.1 ≠ lit "Reply-To" := by
    intro c _ h k v hk hh
    split_ifs
    · exact hset h k v hk hh
    · exact hh
  unfold attachmentsHeader
  exact hset _ _ _ (by decide) (hset _ _ _ (by decide) (hset _ _ _ (by decide)
    (hif _ _ _ _ (by decide) (hif _ _ _ _ (by decide) (hif _ _ _ _ (by decide)
      (hset _ _ _ (by decide) (by simp)))))))

theorem attachmentMimeType_congr (e1 e2 : Env) (a : Attachment)
    (h : e1.TypeByExtension (filepathExt a.Filename) = e2.TypeByExtension (filepathExt a.Filename)) :
    attachmentMimeType e1 a = attachmentMimeType e2 a := by
  simp only [attachmentMimeType, h]

theorem stringsJoin_not_mem (l : List Str) (h : ∀ a ∈ l, (13 : Byte) ∉ a) :
    (13 : Byte) ∉ stringsJoin l (lit ", ") := by
  induction l with
  | nil => simp [stringsJoin]
  | cons a l ih =>
    cases l with
    | nil => simpa [stringsJoin] using h a (by simp)
    | cons b l =>
      have h1 := h a (by simp)
      have h2 := ih (fun x hx => h x (by simp [hx]))
      have h3 : (13 : Byte) ∉ lit ", " := by decide
      simp only [stringsJoin, List.mem_append, not_or]
      exact ⟨⟨h1, h3⟩, h2⟩

theorem mem_optHeader {c : Bool} {k v : Str} {kv : Str × Str} (h : kv ∈ optHeader c k v) :
    kv = (k, v) := by
  unfold optHeader at h
  split_ifs at h <;> simp at h
  exact h

theorem envelope_keys_sublist (email : Email) (date ct : Str) (rt : Bool) :
    ((envelope email date ct rt).map Prod.fst).Sublist envelopeKeys := by
  have ho : ∀ (c : Bool) (k v : Str), ((optHeader c k v).map Prod.fst).Sublist [k] := by
    intro c k v
    unfold optHeader
    split_ifs <;> simp
  simp only [envelope, List.map_append, List.map_cons, List.map_nil]
  show List.Sublist _ ([lit "To"] ++ [lit "Cc"] ++ [lit "Bcc"] ++ [lit "From"] ++
    [lit "Reply-To"] ++ [lit "Subject", lit "Date", lit "Content-Type"])
  refine List.Sublist.append (List.Sublist.append (List.Sublist.append (List.Sublist.append
    (List.Sublist.append (List.Sublist.refl _) (ho _ _ _)) (ho _ _ _)) (ho _ _ _)) (ho _ _ _))
    (List.Sublist.refl _)

theorem envelope_values (email : Email) (date ct : Str) (rt : Bool) (kv : Str × Str)
    (h : kv ∈ envelope email date ct rt) :
    kv.2 = stringsJoin email.To (lit ", ") ∨ kv.2 = stringsJoin email.Cc (lit ", ") ∨
    kv.2 = stringsJoin email.Bcc (lit ", ") ∨ kv.2 = email.From ∨ kv.2 = email.ReplyTo ∨
    kv.2 = email.Subject ∨ kv.2 = date ∨ kv.2 = ct := by
  simp only [envelope, List.mem_append, List.mem_cons, List.mem_singleton, List.not_mem_nil,
    or_false] at h
  rcases h with ((((h | h) | h) | h) | h) | h | h | h
  · subst h; simp
  · rw [mem_optHeader h]; simp
  · rw [mem_optHeader h]; simp
  · rw [mem_optHeader h]; simp
  · rw [mem_optHeader h]; simp
  · subst h; simp
  · subst h; simp
  · subst h; simp

theorem envelope_render_safe (env : Env) (now : Time) (email : Email) (ct : Str) (rt : Bool)
    (hs : HeaderSafe env now email) (hct : (13 : Byte) ∉ ct) :
    ∀ kv ∈ envelope email (env.formatRFC1123Z now) ct rt,
      (13 : Byte) ∉ render kv ∧ render kv ≠ [] := by
  intro kv hkv
  obtain ⟨ha, hf, hr, hsu, hd, _⟩ := hs
  have hk : kv.1 ∈ envelopeKeys :=
    (envelope_keys_sublist email _ ct rt).subset (List.mem_map_of_mem _ hkv)
  have hk13 : ∀ k ∈ envelopeKeys, (13 : Byte) ∉ k ∧ k ≠ [] := by decide
  have hv : (13 : Byte) ∉ kv.2 := by
    rcases envelope_values email _ ct rt kv hkv with h | h | h | h | h | h | h | h <;> rw [h]
    · exact stringsJoin_not_mem _ (fun a h => (ha a (by simp [h])).1)
    · exact stringsJoin_not_mem _ (fun a h => (ha a (by simp [h])).1)
    · exact stringsJoin_not_mem _ (fun a h => (ha a (by simp [h])).1)
    · exact hf.1
    · exact hr.1
    · exact hsu.1
    · exact hd.1
    · exact hct
  have h3 : (13 : Byte) ∉ lit ": " := by decide
  constructor
  · simp only [render, List.mem_append, not_or]
    exact ⟨⟨(hk13 _ hk).1, h3⟩, hv⟩
  · simp only [render, ne_eq, List.append_eq_nil, not_and]
    intro h
    exact absurd h.1 (hk13 _ hk).2

set_option maxRecDepth 1000000 in
theorem env0_wf : env0.WF :=
  ⟨by decide, by decide, fun h => List.Perm.refl h⟩

set_option maxRecDepth 1000000 in
theorem envRev_wf : envRev.WF :=
  ⟨by decide, by decide, fun h => List.reverse_perm h⟩

theorem boundary_no_cr (env : Env) (hwf : env.WF) : (13 : Byte) ∉ env.boundary := by
  intro h
  have := hwf.2.1 13 h
  revert this
  decide

theorem multipart_contentType_safe (env : Env) (hwf : env.WF) :
    (13 : Byte) ∉ lit "multipart/mixed; boundary=" ++ env.boundary := by
  simp only [List.mem_append, not_or]
  exact ⟨by decide, boundary_no_cr env hwf⟩

theorem attachmentsHeaderLines_eq (env : Env) (now : Time) (email : Email) (hwf : env.WF) :
    ∃ pairs : List (Str × Str),
      pairs.Perm (envelope email (env.formatRFC1123Z now)
        (lit "multipart/mixed; boundary=" ++ env.boundary) false) ∧
      attachmentsHeaderLines env now email = pairs.map render := by
  refine ⟨(env.rangeOrder (attachmentsHeader env now env.boundary email)).map
    (fun kv => (kv.1, stringsJoin kv.2 (lit ", "))), ?_, ?_⟩
  · have h1 := (hwf.2.2 (attachmentsHeader env now env.boundary email)).map
      (fun (kv : Str × List Str) => (kv.1, stringsJoin kv.2 (lit ", ")))
    refine h1.trans ?_
    rw [attachmentsHeader_eq, List.map_map]
    have : ((fun (kv : Str × List Str) => (kv.1, stringsJoin kv.2 (lit ", "))) ∘
        fun (kv : Str × Str) => (kv.1, [kv.2])) = id := by
      funext kv
      simp [stringsJoin]
    rw [this, List.map_id]
  · simp only [attachmentsHeaderLines, List.map_map]
    apply List.map_congr_left
    intro kv _
    simp [render]

theorem messageText_attachments (env : Env) (now : Time) (email : Email) (hwf : env.WF)
    (hn : email.Attachments ≠ []) :
    ∃ pairs : List (Str × Str),
      pairs.Perm (envelope email (env.formatRFC1123Z now)
        (lit "multipart/mixed; boundary=" ++ env.boundary) false) ∧
      messageText env now email =
        ((pairs.map render).map (fun l => l ++ CRLF)).flatten ++ CRLF ++
          multipartBody env email := by
  obtain ⟨pairs, hp, he⟩ := attachmentsHeaderLines_eq env now email hwf
  exact ⟨pairs, hp, by simp only [messageText, hn, if_false, he]⟩

theorem multipartBody_pieces (env : Env) (email : Email) :
    CRLF ++ multipartBody env email =
      delimiter env.boundary ++
        ((((CRLF ++ bodyPart email) ::
          email.Attachments.map (fun a => CRLF ++ attachmentPart env a)).map
            (fun x => x ++ delimiter env.boundary)).flatten ++ (lit "--" ++ CRLF)) := by
  have key : ∀ (atts : List Attachment) (P : Str),
      P ++ (atts.map (fun a =>
          CRLF ++ lit "--" ++ env.boundary ++ CRLF ++ attachmentPart env a)).flatten ++
        CRLF ++ lit "--" ++ env.boundary ++ lit "--" ++ CRLF =
      ((P :: atts.map (fun a => CRLF ++ attachmentPart env a)).map
        (fun x => x ++ delimiter env.boundary)).flatten ++ (lit "--" ++ CRLF) := by
    intro atts
    induction atts with
    | nil => intro P; simp [delimiter]
    | cons a atts ih =>
      intro P
      have := ih (CRLF ++ attachmentPart env a)
      simp only [List.map_cons, List.flatten_cons, List.append_assoc, delimiter] at this ⊢
      rw [this]
  have := key email.Attachments (CRLF ++ bodyPart email)
  rw [← this]
  simp only [multipartBody, delimiter, List.append_assoc]

/-! ## Lemmas on reading entities -/

theorem takeWhile_nonempty (lines rest : List Str) (h : ∀ l ∈ lines, l ≠ []) :
    (lines ++ [] :: rest).takeWhile (fun l => l ≠ []) = lines := by
  induction lines with
  | nil => simp
  | cons l ls ih =>
    have hl : l ≠ [] := h l (by simp)
    simp only [List.cons_append, List.takeWhile_cons, hl, ne_eq, not_false_eq_true,
      decide_True, if_true, List.cons.injEq, true_and]
    exact ih (fun x hx => h x (by simp [hx]))

theorem dropWhile_nonempty (lines rest : List Str) (h : ∀ l ∈ lines, l ≠ []) :
    (lines ++ [] :: rest).dropWhile (fun l => l ≠ []) = [] :: rest := by
  induction lines with
  | nil => simp
  | cons l ls ih =>
    have hl : l ≠ [] := h l (by simp)
    simp only [List.cons_append, List.dropWhile_cons, hl, ne_eq, not_false_eq_true,
      decide_True, if_true]
    exact ih (fun x hx => h x (by simp [hx]))

/-- Reading back a header block written line by line, an empty line and a body. -/
theorem parseEntity_lines (lines : List Str) (body : Str)
    (h13 : ∀ l ∈ lines, (13 : Byte) ∉ l) (hne : ∀ l ∈ lines, l ≠ []) :
    parseEntity ((lines.map (fun l => l ++ CRLF)).flatten ++ CRLF ++ body) =
      { header := lines, body := body } := by
  unfold parseEntity
  rw [List.append_assoc, stringsSplit_lines lines _ h13, stringsSplit_sep CRLF body (by decide)]
  simp only [takeWhile_nonempty lines _ hne, dropWhile_nonempty lines _ hne, List.drop_one,
    List.tail_cons, stringsJoin_stringsSplit body CRLF (by decide)]

theorem headerValue_render (pairs : List (Str × Str)) (k v : Str) (hmem : (k, v) ∈ pairs)
    (huniq : ∀ kv ∈ pairs, hasPrefix (render kv) (k ++ lit ": ") = true → kv = (k, v)) :
    headerValue (pairs.map render) k = some v := by
  induction pairs with
  | nil => simp at hmem
  | cons kv rest ih =>
    unfold headerValue
    rw [List.map_cons, List.find?_cons]
    by_cases hp : hasPrefix (render kv) (k ++ lit ": ") = true
    · have := huniq kv (by simp) hp
      subst this
      simp only [hp, Option.some_bind]
      exact cutPrefix_append _ _
    · have hne : kv ≠ (k, v) := by
        rintro rfl
        exact hp (hasPrefix_append_self _ _)
      have hmem2 : (k, v) ∈ rest := by
        rcases List.mem_cons.mp hmem with e | e
        · exact absurd e.symm hne
        · exact e
      simp only [hp]
      exact ih hmem2 (fun x hx => huniq x (by simp [hx]))

set_option maxRecDepth 100000 in
theorem envelopeKeys_separated : ∀ k1 ∈ envelopeKeys, ∀ k2 ∈ envelopeKeys, k1 ≠ k2 →
    ¬ (k1 ++ lit ": ") <+: (k2 ++ lit ": ") := by
  decide

theorem envelopeKeys_nodup : envelopeKeys.Nodup := by decide

theorem headerValue_envelope (pairs : List (Str × Str)) (k v : Str) (hmem : (k, v) ∈ pairs)
    (hk : k ∈ envelopeKeys) (hsub : ∀ kv ∈ pairs, kv.1 ∈ envelopeKeys)
    (hnd : (pairs.map Prod.fst).Nodup) :
    headerValue (pairs.map render) k = some v := by
  apply headerValue_render pairs k v hmem
  intro kv hkv hp
  have hkeq : kv.1 = k := by
    by_contra hne
    rw [hasPrefix_iff] at hp
    have h1 : (kv.1 ++ lit ": ") <+: render kv := by
      unfold render; exact List.prefix_append _ _
    rcases List.prefix_or_prefix_of_prefix hp h1 with h2 | h2
    · exact envelopeKeys_separated k hk kv.1 (hsub kv hkv) (Ne.symm hne) h2
    · exact envelopeKeys_separated kv.1 (hsub kv hkv) k hk hne h2
  obtain ⟨k2, v2⟩ := kv
  simp only at hkeq
  subst hkeq
  have := List.inj_on_of_nodup_map hnd hkv hmem rfl
  exact this

/-- Reading the top of a message whose header lines are the envelope in any
order: the header lines come back, the body comes back, and the headers
`To`, `Subject` and `Content-Type` are found with their values. -/
theorem parseEntity_envelope (env : Env) (now : Time) (email : Email) (ct : Str) (rt : Bool)
    (pairs : List (Str × Str)) (body : Str)
    (hp : pairs.Perm (envelope email (env.formatRFC1123Z now) ct rt))
    (hs : HeaderSafe env now email) (hct : (13 : Byte) ∉ ct) :
    parseEntity (((pairs.map render).map (fun l => l ++ CRLF)).flatten ++ CRLF ++ body) =
      { header := pairs.map render, body := body } ∧
    headerValue (pairs.map render) (lit "To") = some (stringsJoin email.To (lit ", ")) ∧
    headerValue (pairs.map render) (lit "Subject") = some email.Subject ∧
    headerValue (pairs.map render) (lit "Content-Type") = some ct := by
  have hsafe := envelope_render_safe env now email ct rt hs hct
  have hsub : ∀ kv ∈ pairs, kv.1 ∈ envelopeKeys := fun kv hkv =>
    (envelope_keys_sublist email _ ct rt).subset (List.mem_map_of_mem _ (hp.subset hkv))
  have hnd : (pairs.map Prod.fst).Nodup :=
    ((hp.map Prod.fst).nodup_iff).mpr ((envelope_keys_sublist email _ ct rt).nodup
      envelopeKeys_nodup)
  refine ⟨?_, ?_, ?_, ?_⟩
  · apply parseEntity_lines
    · intro l hl
      obtain ⟨kv, hkv, rfl⟩ := List.mem_map.mp hl
      exact (hsafe kv (hp.subset hkv)).1
    · intro l hl
      obtain ⟨kv, hkv, rfl⟩ := List.mem_map.mp hl
      exact (hsafe kv (hp.subset hkv)).2
  · exact headerValue_envelope pairs _ _ (hp.symm.subset (by simp [envelope])) (by decide)
      hsub hnd
  · exact headerValue_envelope pairs _ _ (hp.symm.subset (by simp [envelope])) (by decide)
      hsub hnd
  · exact headerValue_envelope pairs _ _ (hp.symm.subset (by simp [envelope])) (by decide)
      hsub hnd

theorem textContentType_facts (email : Email) :
    (13 : Byte) ∉ textContentType email ∧
    cutPrefix (textContentType email) (lit "multipart/mixed; boundary=") = none := by
  unfold textContentType
  cases email.IsHTML <;> decide

/-- Reading back what the simple path composes. -/
theorem parseText_composeSimple (env : Env) (now : Time) (email : Email)
    (hTo : email.To ≠ []) (hs : HeaderSafe env now email)
    (hto : ∀ a ∈ email.To, ¬ lit ", " <:+: a) :
    parseText (composeSimple env now email) =
      some { To := email.To, Subject := email.Subject, Body := email.Body, Attachments := [] } := by
  obtain ⟨h13, hcut⟩ := textContentType_facts email
  obtain ⟨e1, e2, e3, e4⟩ := parseEntity_envelope env now email (textContentType email) true
    _ email.Body (List.Perm.refl _) hs h13
  unfold parseText
  rw [composeSimple_eq, e1]
  simp only [e2, e3, e4, Option.some_bind, hcut]
  congr 2
  exact stringsSplit_stringsJoin email.To 44 [32] (by decide) hTo hto

theorem parseEntity_textPart (L body : Str) (h13 : (13 : Byte) ∉ L) (hne : L ≠ []) :
    parseEntity (L ++ CRLF ++ CRLF ++ body) = { header := [L], body := body } := by
  have := parseEntity_lines [L] body (by simpa using h13) (by simpa using hne)
  rw [← this]
  simp

theorem parseEntity_bodyPart (email : Email) : parseEntity (bodyPart email) = bodyEntity email := by
  unfold bodyPart bodyEntity
  cases email.IsHTML
  · exact parseEntity_textPart _ _ (by decide) (by decide)
  · exact parseEntity_textPart _ _ (by decide) (by decide)

theorem parseEntity_attachmentPart (env : Env) (a : Attachment)
    (hF : (13 : Byte) ∉ a.Filename) (hT : (13 : Byte) ∉ attachmentMimeType env a) :
    parseEntity (attachmentPart env a) = attachmentEntity env a := by
  have h1 : (13 : Byte) ∉ lit "Content-Disposition: attachment; filename=" := by decide
  have h2 : (13 : Byte) ∉ lit "Content-Transfer-Encoding: base64" := by decide
  have h3 : (13 : Byte) ∉ lit "Content-Type: " := by decide
  have h4 : lit "Content-Disposition: attachment; filename=" ≠ [] := by decide
  have h5 : lit "Content-Transfer-Encoding: base64" ≠ [] := by decide
  have h6 : lit "Content-Type: " ≠ [] := by decide
  have := parseEntity_lines (attachmentEntity env a).header (EncodeToString encodeStd a.Content)
    (by
      intro l hl
      simp only [attachmentEntity, List.mem_cons, List.mem_singleton, List.not_mem_nil,
        or_false] at hl
      rcases hl with rfl | rfl | rfl
      · simp only [List.mem_append, not_or]; exact ⟨h1, hF⟩
      · exact h2
      · simp only [List.mem_append, not_or]; exact ⟨h3, hT⟩)
    (by
      intro l hl
      simp only [attachmentEntity, List.mem_cons, List.mem_singleton, List.not_mem_nil,
        or_false] at hl
      rcases hl with rfl | rfl | rfl
      · simp [h4]
      · exact h5
      · simp [h6])
  refine Eq.trans ?_ this
  congr 1
  simp [attachmentEntity, attachmentPart]

theorem parseAttachment_attachmentEntity (env : Env) (a : Attachment) :
    parseAttachment (attachmentEntity env a) =
      some { Filename := a.Filename, Content := a.Content } := by
  have h1 : hasPrefix (lit "Content-Disposition: attachment; filename=" ++ a.Filename)
      (lit "Content-Disposition" ++ lit ": ") = true := by
    rw [show lit "Content-Disposition: attachment; filename=" =
      (lit "Content-Disposition" ++ lit ": ") ++ lit "attachment; filename=" from by decide,
      List.append_assoc]
    exact hasPrefix_append_self _ _
  have h2 : cutPrefix (lit "Content-Disposition: attachment; filename=" ++ a.Filename)
      (lit "Content-Disposition" ++ lit ": ") = some (lit "attachment; filename=" ++ a.Filename) := by
    rw [show lit "Content-Disposition: attachment; filename=" =
      (lit "Content-Disposition" ++ lit ": ") ++ lit "attachment; filename=" from by decide,
      List.append_assoc]
    exact cutPrefix_append _ _
  simp only [parseAttachment, attachmentEntity, headerValue, List.find?_cons, h1, h2,
    Option.some_bind, cutPrefix_append, DecodeString_EncodeToString goodAlphabet_std]

theorem parseAttachments_attachmentEntity (env : Env) (atts : List Attachment) :
    parseAttachments (atts.map (attachmentEntity env)) =
      some (atts.map (fun a => { Filename := a.Filename, Content := a.Content })) := by
  induction atts with
  | nil => rfl
  | cons a atts ih =>
    simp only [List.map_cons, parseAttachments, parseAttachment_attachmentEntity, ih,
      Option.some_bind]

/-! ## Lemmas on multipart bodies -/

theorem delimiter_eq (b : Str) : delimiter b = 13 :: 10 :: 45 :: 45 :: b := rfl

theorem delimiter_ne_nil (b : Str) : delimiter b ≠ [] := by simp [delimiter_eq]

/-- Passing over one line in the search for a delimiter: a line without
carriage return that does not start what follows it with `-`. -/
theorem infix_line (b S W : Str) (h13 : (13 : Byte) ∉ S) (hd : (S ++ W).head? ≠ some 45)
    (h : delimiter b <:+: CRLF ++ (S ++ W)) : delimiter b <:+: W := by
  rw [delimiter_eq, CRLF_eq] at *
  simp only [List.cons_append, List.nil_append] at h
  rw [List.infix_cons_iff] at h
  rcases h with h | h
  · simp only [List.cons_prefix_cons, true_and] at h
    exfalso
    apply hd
    obtain ⟨t, ht⟩ := h
    rw [← ht]
    rfl
  · have h10 : (13 : Byte) ∉ (10 : Byte) :: S := by
      simp only [List.mem_cons, not_or]
      exact ⟨by decide, h13⟩
    rw [← List.cons_append] at h
    exact (infix_append_of_head_not_mem W h10).mp h

theorem head_lit_append (P F W : Str) (c : Byte) (hP : P.head? = some c) :
    (P ++ F ++ W).head? = some c := by
  cases P with
  | nil => simp at hP
  | cons p P => simpa using hP

theorem not_infix_attachmentPart (env : Env) (b : Str) (a : Attachment)
    (hF : (13 : Byte) ∉ a.Filename) (hT : (13 : Byte) ∉ attachmentMimeType env a) :
    ¬ delimiter b <:+: CRLF ++ attachmentPart env a := by
  intro h
  have hb64 := EncodeToString_std_plain a.Content
  have h1 : attachmentPart env a =
      (lit "Content-Disposition: attachment; filename=" ++ a.Filename) ++ (CRLF ++
      ((lit "Content-Transfer-Encoding: base64" ++ []) ++ (CRLF ++
      ((lit "Content-Type: " ++ attachmentMimeType env a) ++ (CRLF ++
      ([] ++ (CRLF ++ (EncodeToString encodeStd a.Content ++ []))))))))  := by
    simp only [attachmentPart, List.append_assoc, List.append_nil, List.nil_append]
  rw [h1] at h
  have h2 := infix_line b _ _ (by
      simp only [List.mem_append, not_or]; exact ⟨by decide, hF⟩)
    (by rw [head_lit_append _ _ _ 67 (by decide)]; decide) h
  have h3 := infix_line b _ _ (by
      simp only [List.mem_append, not_or]; exact ⟨by decide, by simp⟩)
    (by rw [head_lit_append _ _ _ 67 (by decide)]; decide) h2
  have h4 := infix_line b _ _ (by
      simp only [List.mem_append, not_or]; exact ⟨by decide, hT⟩)
    (by rw [head_lit_append _ _ _ 67 (by decide)]; decide) h3
  have h5 := infix_line b _ _ (by simp) (by simp [CRLF_eq]) h4
  have h6 := infix_line b _ _ (fun hm => (hb64 _ hm).1 rfl)
    (by
      rw [List.append_nil]
      intro hh
      cases hc : EncodeToString encodeStd a.Content with
      | nil => rw [hc] at hh; simp at hh
      | cons x xs =>
        rw [hc] at hh
        simp only [List.head?_cons, Option.some.injEq] at hh
        exact (hb64 x (by rw [hc]; simp)).2 hh) h5
  rw [delimiter_eq] at h6
  simp at h6

theorem not_infix_textPart (b L body : Str) (h13 : (13 : Byte) ∉ L) (hh : L.head? = some 67)
    (hb : ¬ delimiter b <:+: CRLF ++ body) :
    ¬ delimiter b <:+: CRLF ++ (L ++ CRLF ++ CRLF ++ body) := by
  intro h
  have h1 : L ++ CRLF ++ CRLF ++ body = (L ++ []) ++ (CRLF ++ ([] ++ (CRLF ++ body))) := by
    simp only [List.append_assoc, List.append_nil, List.nil_append]
  rw [h1] at h
  have h2 := infix_line b _ _ (by simpa using h13)
    (by rw [head_lit_append _ _ _ 67 hh]; decide) h
  have h3 := infix_line b _ _ (by simp) (by simp [CRLF_eq]) h2
  exact hb h3

theorem not_infix_bodyPart (b : Str) (email : Email)
    (hb : ¬ delimiter b <:+: CRLF ++ email.Body) :
    ¬ delimiter b <:+: CRLF ++ bodyPart email := by
  unfold bodyPart
  cases email.IsHTML
  · exact not_infix_textPart b _ _ (by decide) (by decide) hb
  · exact not_infix_textPart b _ _ (by decide) (by decide) hb

theorem collectParts_pieces (ps : List Str) :
    collectParts (ps.map (fun p => CRLF ++ p) ++ [lit "--" ++ CRLF]) = some ps := by
  induction ps with
  | nil => decide
  | cons p ps ih =>
    have h1 : hasPrefix (CRLF ++ p) (lit "--") = false := by
      rw [CRLF_eq, show lit "--" = (45 : Byte) :: [45] from by decide]
      exact hasPrefix_cons_ne _ _ _ _ (by decide)
    simp only [List.map_cons, List.cons_append, collectParts, h1, Bool.false_eq_true, if_false,
      cutPrefix_append, List.append_eq, ih, Option.map_some']

/-- Splitting the multipart body the attachment path writes gives the body
part and one part for each attachment, in order. -/
theorem multipartParts_multipartBody (env : Env) (now : Time) (email : Email) (hwf : env.WF)
    (hs : HeaderSafe env now email)
    (hb : ¬ (CRLF ++ lit "--" ++ env.boundary) <:+: CRLF ++ email.Body) :
    multipartParts env.boundary (multipartBody env email) =
      some (bodyEntity email :: email.Attachments.map (attachmentEntity env)) := by
  have h13 := boundary_no_cr env hwf
  have hc : (13 : Byte) ∉ (10 : Byte) :: 45 :: 45 :: env.boundary := by
    simp only [List.mem_cons, not_or]
    exact ⟨by decide, by decide, by decide, h13⟩
  have hsplit : stringsSplit (CRLF ++ multipartBody env email) (delimiter env.boundary) =
      [] :: (((CRLF ++ bodyPart email) ::
        email.Attachments.map (fun a => CRLF ++ attachmentPart env a)) ++ [lit "--" ++ CRLF]) := by
    rw [multipartBody_pieces, stringsSplit_sep _ _ (delimiter_ne_nil _),
      stringsSplit_pieces _ _ _ (delimiter_ne_nil _)]
    · intro x hx Y
      rw [delimiter_eq]
      apply NoOcc.of_not_infix Y hc
      rw [← delimiter_eq]
      rcases List.mem_cons.mp hx with rfl | hx
      · exact not_infix_bodyPart _ _ hb
      · obtain ⟨a, ha, rfl⟩ := List.mem_map.mp hx
        exact not_infix_attachmentPart env _ a (hs.2.2.2.2.2 a ha).1.1 (hs.2.2.2.2.2 a ha).2.1
    · apply NoOcc.of_not_infix_nil
      rw [delimiter_eq, show lit "--" ++ CRLF = [45, 45, 13, 10] from by decide]
      simp [List.infix_cons_iff]
  unfold multipartParts
  rw [show CRLF ++ lit "--" ++ env.boundary = delimiter env.boundary from rfl, hsplit]
  have hcp := collectParts_pieces (bodyPart email :: email.Attachments.map (attachmentPart env))
  simp only [List.map_cons, List.map_map, Function.comp_def] at hcp
  simp only [hcp, Option.map_some', List.map_cons, parseEntity_bodyPart, List.map_map,
    Option.some.injEq, List.cons.injEq, true_and]
  apply List.map_congr_left
  intro a ha
  exact parseEntity_attachmentPart env a (hs.2.2.2.2.2 a ha).1.1 (hs.2.2.2.2.2 a ha).2.1

/-! ## Lemmas on `filepath.Ext` -/

theorem extScan_pass (r rest acc : Str) (h46 : (46 : Byte) ∉ r) (h47 : (47 : Byte) ∉ r) :
    extScan (r ++ rest) acc = extScan rest (r.reverse ++ acc) := by
  induction r generalizing acc with
  | nil => rfl
  | cons c r ih =>
    simp only [List.mem_cons, not_or] at h46 h47
    rw [List.cons_append, extScan, if_neg (Ne.symm h47.1), if_neg (Ne.symm h46.1),
      ih _ h46.2 h47.2]
    simp

theorem extScan_no_dot (r rest acc : Str) (h46 : (46 : Byte) ∉ r)
    (hrest : rest = [] ∨ ∃ t, rest = 47 :: t) : extScan (r ++ rest) acc = [] := by
  induction r generalizing acc with
  | nil =>
    rcases hrest with rfl | ⟨t, rfl⟩
    · rfl
    · simp [extScan]
  | cons c r ih =>
    simp only [List.mem_cons, not_or] at h46
    rw [List.cons_append, extScan, if_neg (Ne.symm h46.1)]
    split_ifs
    · rfl
    · exact ih _ h46.2

/-- The extension `filepath.Ext` finds: what follows the last dot, with the
dot, when no slash comes after it. -/
theorem filepathExt_dot (base ext : Str) (h46 : (46 : Byte) ∉ ext) (h47 : (47 : Byte) ∉ ext) :
    filepathExt (base ++ 46 :: ext) = 46 :: ext := by
  unfold filepathExt
  rw [List.reverse_append, List.reverse_cons, List.append_assoc,
    extScan_pass _ _ _ (by simpa using h46) (by simpa using h47)]
  simp [extScan]

/-- No extension: the last element of the path has no dot. -/
theorem filepathExt_none (dir name : Str) (h46 : (46 : Byte) ∉ name) :
    filepathExt name = [] ∧ filepathExt (dir ++ 47 :: name) = [] := by
  unfold filepathExt
  constructor
  · have := extScan_no_dot name.reverse [] [] (by simpa using h46) (Or.inl rfl)
    simpa using this
  · rw [List.reverse_append, List.reverse_cons, List.append_assoc]
    exact extScan_no_dot _ _ _ (by simpa using h46) (Or.inr ⟨_, rfl⟩)

theorem TypeByExtension_nil (env : Env) : env.TypeByExtension [] = [] := rfl

/-! ## C1: validation -/

set_option maxRecDepth 100000 in
/-- C1, at an email whose `To`, `Cc` and `Bcc` are windows on one backing
array: `Bcc` holds the address `bad` without `@`, subject and body are set,
and `validateEmail` returns no error, since `append(email.To, email.Cc...)`
has overwritten `bad` before `Bcc` is read; afterwards `Bcc` reads `c@z.net`. -/
theorem validateEmail_accepts_aliased :
    emailAliased.To = [lit "a@x.com"] ∧ emailAliased.Cc = [lit "c@z.net"] ∧
    emailAliased.Bcc = [lit "bad"] ∧ (64 : Byte) ∉ lit "bad" ∧
    emailAliased.Subject ≠ [] ∧ emailAliased.Body ≠ [] ∧
    validateEmail emailAliased = none ∧
    (GmailClient.validateEmail emailAliased).2.Bcc = [lit "c@z.net"] := by
  decide

/-! ## C2: the simple path -/

/-- C2: for an email without attachments `createMessage` succeeds and `Raw`
decodes to the headers `To`, `Cc`, `Bcc`, `From`, `Reply-To` (each of the last
four only when set), `Subject`, `Date`, `Content-Type`, an empty line and the
body, in this order; the example email decodes to a text that starts with
`To: a@x.com\r\nSubject: Hi\r\n` and ends with `Hello`. -/
theorem createMessage_simple (env : Env) (now : Time) (email : Email)
    (h : email.Attachments = []) :
    (∃ m, createMessage env now email = .ok m ∧
      DecodeString encodeURL m.Raw = some (
        lit "To: " ++ stringsJoin email.To (lit ", ") ++ CRLF ++
        (if email.Cc = [] then [] else lit "Cc: " ++ stringsJoin email.Cc (lit ", ") ++ CRLF) ++
        (if email.Bcc = [] then [] else lit "Bcc: " ++ stringsJoin email.Bcc (lit ", ") ++ CRLF) ++
        (if email.From = [] then [] else lit "From: " ++ email.From ++ CRLF) ++
        (if email.ReplyTo = [] then [] else lit "Reply-To: " ++ email.ReplyTo ++ CRLF) ++
        lit "Subject: " ++ email.Subject ++ CRLF ++
        lit "Date: " ++ env.formatRFC1123Z now ++ CRLF ++
        (if email.IsHTML then lit "Content-Type: text/html; charset=UTF-8"
          else lit "Content-Type: text/plain; charset=UTF-8") ++ CRLF ++
        CRLF ++ email.Body)) ∧
    (∃ m text, createMessage env now emailHi = .ok m ∧
      DecodeString encodeURL m.Raw = some text ∧
      lit "To: a@x.com\r\nSubject: Hi\r\n" <+: text ∧ lit "Hello" <:+ text) := by
  have hgen : ∀ e : Email, e.Attachments = [] →
      DecodeString encodeURL (EncodeToString encodeURL (messageText env now e)) = some (
        lit "To: " ++ stringsJoin e.To (lit ", ") ++ CRLF ++
        (if e.Cc = [] then [] else lit "Cc: " ++ stringsJoin e.Cc (lit ", ") ++ CRLF) ++
        (if e.Bcc = [] then [] else lit "Bcc: " ++ stringsJoin e.Bcc (lit ", ") ++ CRLF) ++
        (if e.From = [] then [] else lit "From: " ++ e.From ++ CRLF) ++
        (if e.ReplyTo = [] then [] else lit "Reply-To: " ++ e.ReplyTo ++ CRLF) ++
        lit "Subject: " ++ e.Subject ++ CRLF ++
        lit "Date: " ++ env.formatRFC1123Z now ++ CRLF ++
        (if e.IsHTML then lit "Content-Type: text/html; charset=UTF-8"
          else lit "Content-Type: text/plain; charset=UTF-8") ++ CRLF ++
        CRLF ++ e.Body) := by
    intro e he
    rw [DecodeString_EncodeToString goodAlphabet_url]
    simp only [messageText, he, if_true, composeSimple, List.nil_append, Option.some.injEq]
    have hl : ∀ l : List Str, (l.length > 0) = (¬ l = []) := by
      intro l; cases l <;> simp
    simp only [hl]
    by_cases h1 : e.Cc = [] <;> by_cases h2 : e.Bcc = [] <;>
      by_cases h3 : e.From = [] <;> by_cases h4 : e.ReplyTo = [] <;>
      cases h5 : e.IsHTML <;>
      simp [h1, h2, h3, h4]
  constructor
  · exact ⟨_, createMessage_eq env now email, hgen email h⟩
  · have e1 : emailHi.To = [lit "a@x.com"] := by decide
    have e2 : emailHi.Cc = [] := by decide
    have e3 : emailHi.Bcc = [] := by decide
    have e4 : emailHi.From = [] := rfl
    have e5 : emailHi.ReplyTo = [] := rfl
    have e6 : emailHi.Subject = lit "Hi" := rfl
    have e7 : emailHi.IsHTML = false := rfl
    have e8 : emailHi.Body = lit "Hello" := rfl
    have ht := hgen emailHi rfl
    rw [e1, e2, e3, e4, e5, e6, e7, e8] at ht
    simp only [if_true, stringsJoin, Bool.false_eq_true, if_false, List.append_nil,
      List.append_assoc] at ht
    refine ⟨_, _, createMessage_eq env now emailHi, ht, ?_, ?_⟩
    · refine ⟨lit "Date: " ++ env.formatRFC1123Z now ++ CRLF ++
        lit "Content-Type: text/plain; charset=UTF-8" ++ CRLF ++ CRLF ++ lit "Hello", ?_⟩
      rw [show lit "To: a@x.com\r\nSubject: Hi\r\n" =
        lit "To: " ++ (lit "a@x.com" ++ (CRLF ++ (lit "Subject: " ++ (lit "Hi" ++ CRLF)))) from by decide]
      simp only [List.append_assoc]
    · refine ⟨lit "To: " ++ lit "a@x.com" ++ CRLF ++ lit "Subject: " ++ lit "Hi" ++ CRLF ++
        lit "Date: " ++ env.formatRFC1123Z now ++ CRLF ++
        lit "Content-Type: text/plain; charset=UTF-8" ++ CRLF ++ CRLF, ?_⟩
      simp only [List.append_assoc]

theorem createMessage_simple_witness :
    emailHi.Attachments = [] ∧
    ((∃ m, createMessage env0 0 emailHi = .ok m ∧
      DecodeString encodeURL m.Raw = some (
        lit "To: " ++ stringsJoin emailHi.To (lit ", ") ++ CRLF ++
        (if emailHi.Cc = [] then [] else lit "Cc: " ++ stringsJoin emailHi.Cc (lit ", ") ++ CRLF) ++
        (if emailHi.Bcc = [] then [] else lit "Bcc: " ++ stringsJoin emailHi.Bcc (lit ", ") ++ CRLF) ++
        (if emailHi.From = [] then [] else lit "From: " ++ emailHi.From ++ CRLF) ++
        (if emailHi.ReplyTo = [] then [] else lit "Reply-To: " ++ emailHi.ReplyTo ++ CRLF) ++
        lit "Subject: " ++ emailHi.Subject ++ CRLF ++
        lit "Date: " ++ env0.formatRFC1123Z 0 ++ CRLF ++
        (if emailHi.IsHTML then lit "Content-Type: text/html; charset=UTF-8"
          else lit "Content-Type: text/plain; charset=UTF-8") ++ CRLF ++
        CRLF ++ emailHi.Body)) ∧
    (∃ m text, createMessage env0 0 emailHi = .ok m ∧
      DecodeString encodeURL m.Raw = some text ∧
      lit "To: a@x.com\r\nSubject: Hi\r\n" <+: text ∧ lit "Hello" <:+ text)) :=
  ⟨rfl, createMessage_simple env0 0 emailHi rfl⟩

/-! ## C3: the parts of a multipart message -/

set_option maxRecDepth 1000000 in
/-- C3 fails as stated: with the boundary of `env0`, a valid email with one
attachment whose body holds a delimiter line is split into three parts, not
two; and a valid email whose attachment's file name holds an empty line gives
parts none of which has the header `Content-Transfer-Encoding: base64`. -/
theorem multipart_parts_counterexample :
    env0.WF ∧
    (validateEmail emailDelimiterInBody = none ∧
      emailDelimiterInBody.Attachments.length = 1 ∧
      ∃ m text, createMessage env0 0 emailDelimiterInBody = .ok m ∧
        DecodeString encodeURL m.Raw = some text ∧
        (multipartParts env0.boundary (parseEntity text).body).map List.length = some 3) ∧
    (validateEmail emailBreakInFilename = none ∧
      ∃ m text, createMessage env0 0 emailBreakInFilename = .ok m ∧
        DecodeString encodeURL m.Raw = some text ∧
        (multipartParts env0.boundary (parseEntity text).body).map
          (fun parts => parts.map
            (fun p => decide (lit "Content-Transfer-Encoding: base64" ∈ p.header))) =
          some [false, false]) := by
  refine ⟨env0_wf, ⟨by decide, rfl, _, _, createMessage_eq _ _ _,
    DecodeString_EncodeToString goodAlphabet_url _, by decide⟩,
    by decide, _, _, createMessage_eq _ _ _,
    DecodeString_EncodeToString goodAlphabet_url _, by decide⟩

/-- C3, amended: for an email with `N ≥ 1` attachments whose header fields
hold no line break and whose body has no line starting with `--` and the
boundary, the decoded message splits at the delimiter lines into exactly
`N + 1` parts: the body with its `Content-Type`, then one part for each
attachment, in order, with the headers `Content-Disposition: attachment;
filename=<Filename>`, `Content-Transfer-Encoding: base64` and `Content-Type`,
and the base64 text of the content as body. -/
theorem multipart_parts (env : Env) (now : Time) (email : Email) (hwf : env.WF)
    (hn : email.Attachments ≠ []) (hs : HeaderSafe env now email)
    (hb : ¬ (CRLF ++ lit "--" ++ env.boundary) <:+: CRLF ++ email.Body) :
    ∃ m text parts, createMessage env now email = .ok m ∧
      DecodeString encodeURL m.Raw = some text ∧
      multipartParts env.boundary (parseEntity text).body = some parts ∧
      parts.length = email.Attachments.length + 1 ∧
      parts = bodyEntity email :: email.Attachments.map (attachmentEntity env) := by
  obtain ⟨pairs, hp, he⟩ := messageText_attachments env now email hwf hn
  obtain ⟨e1, _⟩ := parseEntity_envelope env now email _ false pairs (multipartBody env email)
    hp hs (multipart_contentType_safe env hwf)
  refine ⟨_, _, _, createMessage_eq env now email,
    DecodeString_EncodeToString goodAlphabet_url _, ?_, ?_, rfl⟩
  · rw [he, e1]
    exact multipartParts_multipartBody env now email hwf hs hb
  · simp

set_option maxRecDepth 1000000 in
theorem multipart_parts_witness :
    envRev.WF ∧ emailFull.Attachments ≠ [] ∧ HeaderSafe envRev 0 emailFull ∧
    ¬ (CRLF ++ lit "--" ++ envRev.boundary) <:+: CRLF ++ emailFull.Body ∧
    ∃ m text parts, createMessage envRev 0 emailFull = .ok m ∧
      DecodeString encodeURL m.Raw = some text ∧
      multipartParts envRev.boundary (parseEntity text).body = some parts ∧
      parts.length = emailFull.Attachments.length + 1 ∧
      parts = bodyEntity emailFull :: emailFull.Attachments.map (attachmentEntity envRev) :=
  ⟨envRev_wf, by decide, by decide, by decide,
    multipart_parts envRev 0 emailFull envRev_wf (by decide) (by decide) (by decide)⟩

/-! ## C4: round trip -/

set_option maxRecDepth 1000000 in
/-- C4 fails as stated: a valid email whose one recipient string holds `", "`
is read back with two recipients; a valid email whose subject holds an empty
line has its header block end after `Subject: Hi`, so that the subject read
back is `Hi` and the message is not read back as the email. -/
theorem parseRaw_counterexample :
    (validateEmail emailCommaTo = none ∧
      ∃ m, createMessage env0 0 emailCommaTo = .ok m ∧
        (parseRaw m.Raw).map (fun p => p.To) = some [lit "a@x.com", lit "b@y.com"] ∧
        emailCommaTo.To ≠ [lit "a@x.com", lit "b@y.com"]) ∧
    (validateEmail emailBreakInSubject = none ∧
      ∃ m text, createMessage env0 0 emailBreakInSubject = .ok m ∧
        DecodeString encodeURL m.Raw = some text ∧
        (parseEntity text).header = [lit "To: a@x.com", lit "Subject: Hi"] ∧
        headerValue (parseEntity text).header (lit "Subject") = some (lit "Hi") ∧
        emailBreakInSubject.Subject ≠ lit "Hi" ∧
        parseRaw m.Raw = none) := by
  refine ⟨⟨by decide, _, createMessage_eq _ _ _, ?_, by decide⟩,
    by decide, _, _, createMessage_eq _ _ _, DecodeString_EncodeToString goodAlphabet_url _,
    by decide, by decide, by decide, ?_⟩
  · simp only [parseRaw, DecodeString_EncodeToString goodAlphabet_url, Option.some_bind]
    decide
  · simp only [parseRaw, DecodeString_EncodeToString goodAlphabet_url, Option.some_bind]
    decide

/-- C4, amended: for an email that passes `validateEmail`, whose header fields
hold no line break, whose `To` addresses do not contain `", "` and, when it
has attachments, whose body has no line starting with `--` and the boundary,
reading the `Raw` payload back recovers `To`, `Subject`, `Body` and every
attachment's file name and content. -/
theorem parseRaw_createMessage (env : Env) (now : Time) (email : Email) (hwf : env.WF)
    (hv : validateEmail email = none) (hs : HeaderSafe env now email)
    (hto : ∀ a ∈ email.To, ¬ lit ", " <:+: a)
    (hb : email.Attachments ≠ [] →
      ¬ (CRLF ++ lit "--" ++ env.boundary) <:+: CRLF ++ email.Body) :
    ∃ m, createMessage env now email = .ok m ∧
      parseRaw m.Raw = some
        { To := email.To, Subject := email.Subject, Body := email.Body,
          Attachments := email.Attachments.map
            (fun a => { Filename := a.Filename, Content := a.Content }) } := by
  have hTo : email.To ≠ [] := validateEmail_to_ne_nil email hv
  refine ⟨_, createMessage_eq env now email, ?_⟩
  unfold parseRaw
  rw [DecodeString_EncodeToString goodAlphabet_url, Option.some_bind]
  by_cases hn : email.Attachments = []
  · rw [show messageText env now email = composeSimple env now email from by
      simp [messageText, hn], parseText_composeSimple env now email hTo hs hto, hn]
    rfl
  · obtain ⟨pairs, hp, he⟩ := messageText_attachments env now email hwf hn
    obtain ⟨e1, e2, e3, e4⟩ := parseEntity_envelope env now email _ false pairs
      (multipartBody env email) hp hs (multipart_contentType_safe env hwf)
    unfold parseText
    rw [he, e1]
    simp only [e2, e3, e4, Option.some_bind, cutPrefix_append,
      multipartParts_multipartBody env now email hwf hs (hb hn),
      parseAttachments_attachmentEntity]
    congr 2
    exact stringsSplit_stringsJoin email.To 44 [32] (by decide) hTo hto

set_option maxRecDepth 1000000 in
theorem parseRaw_createMessage_witness :
    envRev.WF ∧ validateEmail emailFull = none ∧ HeaderSafe envRev 0 emailFull ∧
    (∀ a ∈ emailFull.To, ¬ lit ", " <:+: a) ∧
    ¬ (CRLF ++ lit "--" ++ envRev.boundary) <:+: CRLF ++ emailFull.Body ∧
    ∃ m, createMessage envRev 0 emailFull = .ok m ∧
      parseRaw m.Raw = some
        { To := emailFull.To, Subject := emailFull.Subject, Body := emailFull.Body,
          Attachments := emailFull.Attachments.map
            (fun a => { Filename := a.Filename, Content := a.Content }) } :=
  ⟨envRev_wf, by decide, by decide, by decide, by decide,
    parseRaw_createMessage envRev 0 emailFull envRev_wf (by decide) (by decide) (by decide)
      (fun _ => by decide)⟩

/-! ## C5: the encoding of `Raw` -/

/-- C5: `createMessage` always succeeds, and its `Raw` is the padded URL-safe
base64 encoding of the whole composed message: a multiple of four characters
from `A-Z a-z 0-9 - _` followed by at most two `=`, never `+` or `/`, which
decodes to exactly the composed bytes. -/
theorem createMessage_raw (env : Env) (now : Time) (email : Email) :
    ∃ buf : Str,
      (if email.Attachments = [] then buf = composeSimple env now email
        else composeWithAttachments env now email = .ok buf) ∧
      createMessage env now email = .ok { Raw := EncodeToString encodeURL buf } ∧
      (EncodeToString encodeURL buf).length % 4 = 0 ∧
      (∃ body pad, EncodeToString encodeURL buf = body ++ pad ∧
        (∀ c ∈ body, isUrlSafeChar c = true) ∧ (pad = [] ∨ pad = [61] ∨ pad = [61, 61])) ∧
      (∀ c ∈ EncodeToString encodeURL buf, c ≠ 43 ∧ c ≠ 47) ∧
      DecodeString encodeURL (EncodeToString encodeURL buf) = some buf := by
  refine ⟨messageText env now email, ?_, createMessage_eq env now email, ?_⟩
  · by_cases h : email.Attachments = []
    · simp [h, messageText]
    · simp only [h, if_false, composeWithAttachments_eq, messageText]
  · obtain ⟨hl, body, pad, he, hb, hp⟩ := EncodeToString_shape encodeURL
      (messageText env now email)
    have hsafe : ∀ c ∈ body, isUrlSafeChar c = true := by
      intro c hc
      obtain ⟨i, rfl⟩ := hb c hc
      exact encAt_url_safe i
    refine ⟨hl, ⟨body, pad, he, hsafe, hp⟩, ?_, DecodeString_EncodeToString goodAlphabet_url _⟩
    intro c hc
    rw [he, List.mem_append] at hc
    rcases hc with hc | hc
    · have := hsafe c hc
      constructor <;> (rintro rfl; revert this; decide)
    · rcases hp with rfl | rfl | rfl
      · simp at hc
      · simp only [List.mem_singleton] at hc; subst hc; decide
      · simp only [List.mem_cons, List.mem_singleton, List.not_mem_nil, or_false, or_self] at hc
        subst hc; decide

/-! ## C6: determinism -/

set_option maxRecDepth 1000000 in
/-- C6 fails as stated: for one email with an attachment and one instant, two
runs that draw different boundaries return different results. -/
theorem createMessage_boundary_dependent :
    env0.formatRFC1123Z = env1.formatRFC1123Z ∧
    createMessage env0 0 emailReplyTo ≠ createMessage env1 0 emailReplyTo := by
  refine ⟨rfl, ?_⟩
  rw [createMessage_eq, createMessage_eq]
  intro h
  have h2 := EncodeToString_injective goodAlphabet_url _ _
    (congrArg Message.Raw (Except.ok.inj h))
  revert h2
  decide

/-- C6, amended: for the same email and instant, two runs of `createMessage`
return the same result when the email has no attachments; with attachments
they do when they also draw the same boundary, range over the header map in
the same order and consult the same MIME table. -/
theorem createMessage_deterministic (e1 e2 : Env) (now : Time) (email : Email)
    (ht : e1.formatRFC1123Z now = e2.formatRFC1123Z now)
    (hr : email.Attachments ≠ [] →
      e1.boundary = e2.boundary ∧
      e1.rangeOrder (attachmentsHeader e1 now e1.boundary email) =
        e2.rangeOrder (attachmentsHeader e1 now e1.boundary email) ∧
      ∀ a ∈ email.Attachments,
        e1.TypeByExtension (filepathExt a.Filename) =
          e2.TypeByExtension (filepathExt a.Filename)) :
    createMessage e1 now email = createMessage e2 now email := by
  rw [createMessage_eq, createMessage_eq]
  by_cases h : email.Attachments = []
  · simp only [messageText, h, if_true, composeSimple, ht]
  · obtain ⟨hb, ho, hm⟩ := hr h
    have hh : attachmentsHeader e2 now e2.boundary email =
        attachmentsHeader e1 now e1.boundary email := by
      simp only [attachmentsHeader, ht, hb]
    have hp : List.map (fun a => CRLF ++ lit "--" ++ e1.boundary ++ CRLF ++ attachmentPart e1 a)
        email.Attachments =
        List.map (fun a => CRLF ++ lit "--" ++ e2.boundary ++ CRLF ++ attachmentPart e2 a)
        email.Attachments := by
      apply List.map_congr_left
      intro a ha
      simp only [attachmentPart, attachmentMimeType_congr e1 e2 a (hm a ha), hb]
    simp only [messageText, h, if_false, attachmentsHeaderLines, multipartBody]
    rw [hh, ← ho, ← hp, ← hb]

theorem createMessage_deterministic_witness :
    (env0.formatRFC1123Z 0 = env1.formatRFC1123Z 0 ∧
      createMessage env0 0 emailHi = createMessage env1 0 emailHi) ∧
    (env0.formatRFC1123Z 0 = envZip.formatRFC1123Z 0 ∧ emailReplyTo.Attachments ≠ [] ∧
      createMessage env0 0 emailReplyTo = createMessage envZip 0 emailReplyTo) :=
  ⟨⟨rfl, createMessage_deterministic env0 env1 0 emailHi rfl (fun h => absurd rfl h)⟩,
    rfl, by decide,
    createMessage_deterministic env0 envZip 0 emailReplyTo rfl
      (fun _ => ⟨rfl, rfl, by decide⟩)⟩

/-! ## C7: the MIME type of an attachment -/

/-- C7: the part `addAttachment` writes carries as `Content-Type` the
attachment's `MimeType` when it is set, else the type `mime.TypeByExtension`
gives for `filepath.Ext(Filename)` when there is one, else
`application/octet-stream`; `AttachFile` without a MIME type leaves `MimeType`
empty, and with MIME types stores the first.  The extension is what follows
the last dot of the last path element, with the dot; a file name whose last
element has no dot has no extension and no inferred type, so that an
attachment built by `AttachFile(filename, content)` from such a name is sent
as `application/octet-stream`. -/
theorem addAttachment_content_type (env : Env) (w : Writer) (a : Attachment)
    (email : Email) (filename : Str) (content : List Byte) (m : Str) (ms : List Str)
    (base ext dir name : Str) :
    addAttachment env w a = .ok
      { w := w.w ++ (if w.lastpart then CRLF ++ lit "--" ++ w.boundary ++ CRLF
            else lit "--" ++ w.boundary ++ CRLF) ++
          lit "Content-Disposition: attachment; filename=" ++ a.Filename ++ CRLF ++
          lit "Content-Transfer-Encoding: base64" ++ CRLF ++
          lit "Content-Type: " ++
            (if a.MimeType ≠ [] then a.MimeType
              else if env.TypeByExtension (filepathExt a.Filename) ≠ [] then
                env.TypeByExtension (filepathExt a.Filename)
              else lit "application/octet-stream") ++ CRLF ++
          CRLF ++ EncodeToString encodeStd a.Content
        boundary := w.boundary
        lastpart := true } ∧
    (email.AttachFile filename content []).Attachments =
      email.Attachments ++ [{ Filename := filename, Content := content, MimeType := [] }] ∧
    (email.AttachFile filename content (m :: ms)).Attachments =
      email.Attachments ++ [{ Filename := filename, Content := content, MimeType := m }] ∧
    ((46 : Byte) ∉ ext → (47 : Byte) ∉ ext →
      filepathExt (base ++ 46 :: ext) = 46 :: ext ∧
      env.TypeByExtension (filepathExt (base ++ 46 :: ext)) = env.mimeTable ext) ∧
    ((46 : Byte) ∉ name →
      filepathExt name = [] ∧ filepathExt (dir ++ 47 :: name) = [] ∧
      env.TypeByExtension (filepathExt name) = [] ∧
      env.TypeByExtension (filepathExt (dir ++ 47 :: name)) = [] ∧
      ∀ f, f = name ∨ f = dir ++ 47 :: name →
        addAttachment env w { Filename := f, Content := content, MimeType := [] } = .ok
          { w := w.w ++ (if w.lastpart then CRLF ++ lit "--" ++ w.boundary ++ CRLF
                else lit "--" ++ w.boundary ++ CRLF) ++
              lit "Content-Disposition: attachment; filename=" ++ f ++ CRLF ++
              lit "Content-Transfer-Encoding: base64" ++ CRLF ++
              lit "Content-Type: " ++ lit "application/octet-stream" ++ CRLF ++
              CRLF ++ EncodeToString encodeStd content
            boundary := w.boundary
            lastpart := true }) := by
  have hA : ∀ b : Attachment, addAttachment env w b = .ok
      { w := w.w ++ (if w.lastpart then CRLF ++ lit "--" ++ w.boundary ++ CRLF
            else lit "--" ++ w.boundary ++ CRLF) ++
          lit "Content-Disposition: attachment; filename=" ++ b.Filename ++ CRLF ++
          lit "Content-Transfer-Encoding: base64" ++ CRLF ++
          lit "Content-Type: " ++
            (if b.MimeType ≠ [] then b.MimeType
              else if env.TypeByExtension (filepathExt b.Filename) ≠ [] then
                env.TypeByExtension (filepathExt b.Filename)
              else lit "application/octet-stream") ++ CRLF ++
          CRLF ++ EncodeToString encodeStd b.Content
        boundary := w.boundary
        lastpart := true } := by
    intro b
    rw [addAttachment_eq]
    simp only [attachmentPart, attachmentMimeType, List.append_assoc, ne_eq, ite_not]
  refine ⟨hA a, rfl, rfl, ?_, ?_⟩
  · intro h46 h47
    rw [filepathExt_dot base ext h46 h47]
    exact ⟨rfl, by simp [Env.TypeByExtension]⟩
  · intro h46
    obtain ⟨e1, e2⟩ := filepathExt_none dir name h46
    refine ⟨e1, e2, by rw [e1]; rfl, by rw [e2]; rfl, ?_⟩
    intro f hf
    have hf0 : env.TypeByExtension (filepathExt f) = [] := by
      rcases hf with rfl | rfl
      · rw [e1]; rfl
      · rw [e2]; rfl
    rw [hA]
    simp only [ne_eq, not_true_eq_false, if_false, hf0]

theorem addAttachment_content_type_witness :
    (46 : Byte) ∉ lit "zip" ∧ (47 : Byte) ∉ lit "zip" ∧ (46 : Byte) ∉ lit "README" ∧
    (filepathExt (lit "docs/archive" ++ 46 :: lit "zip") = 46 :: lit "zip" ∧
      envZip.TypeByExtension (filepathExt (lit "docs/archive" ++ 46 :: lit "zip")) =
        envZip.mimeTable (lit "zip")) ∧
    envZip.mimeTable (lit "zip") = lit "application/zip" ∧
    filepathExt (lit "README") = [] ∧ filepathExt (lit "v1.2" ++ 47 :: lit "README") = [] ∧
    envZip.TypeByExtension (filepathExt (lit "v1.2" ++ 47 :: lit "README")) = [] :=
  have h := addAttachment_content_type envZip (NewWriter envZip [])
    { Filename := lit "f.txt", Content := lit "data", MimeType := [] } emailHi (lit "README") (lit "data") (lit "text/plain") [] (lit "docs/archive") (lit "zip")
    (lit "v1.2") (lit "README")
  ⟨by decide, by decide, by decide, h.2.2.2.1 (by decide) (by decide), by decide,
    (h.2.2.2.2 (by decide)).1, (h.2.2.2.2 (by decide)).2.1, (h.2.2.2.2 (by decide)).2.2.2.1⟩

/-! ## C8: sending an invalid email -/

/-- C8: when `validateEmail` rejects the email with error `err`, `SendEmail`
returns a result with `Success = false`, empty `MessageID` and `ThreadID` and
`Error` the non-empty message of `err`, returns `err` itself, and hands no
message to the mail service. -/
theorem SendEmail_invalid (env : Env) (service : MailService) (sentAt date : Time)
    (email : Email) (err : Str) (h : validateEmail email = some err) :
    SendEmail env service sentAt date email =
        (({ MessageID := [], Success := false, Error := err, SentAt := sentAt, ThreadID := [] },
          some err), []) ∧ err ≠ [] := by
  refine ⟨?_, validateEmail_message_ne_nil email err h⟩
  unfold validateEmail at h
  unfold SendEmail
  cases hr : GmailClient.validateEmail email with
  | mk e em =>
    rw [hr] at h
    simp only at h
    subst h
    rfl

theorem SendEmail_invalid_witness :
    validateEmail emailNoRecipient = some (lit "at least one recipient is required") ∧
    SendEmail env0 serviceOk 0 0 emailNoRecipient =
      (({ MessageID := [], Success := false, Error := lit "at least one recipient is required",
          SentAt := 0, ThreadID := [] },
        some (lit "at least one recipient is required")), []) ∧
    lit "at least one recipient is required" ≠ [] :=
  ⟨by decide, SendEmail_invalid env0 serviceOk 0 0 emailNoRecipient _ (by decide)⟩

/-! ## C9: configuration without file paths -/

/-- C9: with an empty `CredentialsFile` or `TokenFile`, `validateConfig`
returns its error (the one on `credentials_file` first) and makes no call to
the file system, whatever the file system is; `NewClient` then fails with
that error, also without any call to the file system. -/
theorem validateConfig_empty_path {OAuthConfig Token Service : Type}
    (ext : Externals OAuthConfig Token Service) (fs : FS) (cfg : Config)
    (h : cfg.CredentialsFile = [] ∨ cfg.TokenFile = []) :
    validateConfig fs cfg =
        (some (if cfg.CredentialsFile = [] then lit "credentials_file is required"
          else lit "token_file is required"), []) ∧
      (∀ fs2 : FS, validateConfig fs2 cfg = validateConfig fs cfg) ∧
      (NewClient ext fs (some cfg)).2 = [] ∧
      (NewClient ext fs (some cfg)).1 = .error (lit "invalid configuration: " ++
        (if cfg.CredentialsFile = [] then lit "credentials_file is required"
          else lit "token_file is required")) := by
  have key : ∀ (f : FS) (c : Config), (c.CredentialsFile = [] ∨ c.TokenFile = []) →
      validateConfig f c =
        (some (if c.CredentialsFile = [] then lit "credentials_file is required"
          else lit "token_file is required"), []) := by
    intro f c hc
    unfold validateConfig
    by_cases h1 : c.CredentialsFile = []
    · simp [h1]
    · have h2 : c.TokenFile = [] := by tauto
      simp [h1, h2]
  have hN : NewClient ext fs (some cfg) =
      (.error (lit "invalid configuration: " ++
        (if cfg.CredentialsFile = [] then lit "credentials_file is required"
          else lit "token_file is required")), []) := by
    unfold NewClient
    by_cases hs : cfg.Scopes.length = 0
    · simp only [hs, if_true]
      rw [key fs _ (by simpa using h)]
    · simp only [hs, if_false]
      rw [key fs _ h]
  refine ⟨key fs cfg h, fun fs2 => by rw [key fs2 cfg h, key fs cfg h], ?_, ?_⟩
  · rw [hN]
  · rw [hN]

theorem validateConfig_empty_path_witness :
    (cfgNoToken.CredentialsFile = [] ∨ cfgNoToken.TokenFile = []) ∧
    validateConfig fsEmpty cfgNoToken =
        (some (if cfgNoToken.CredentialsFile = [] then lit "credentials_file is required"
          else lit "token_file is required"), []) ∧
      (∀ fs2 : FS, validateConfig fs2 cfgNoToken = validateConfig fsEmpty cfgNoToken) ∧
      (NewClient extUnit fsEmpty (some cfgNoToken)).2 = [] ∧
      (NewClient extUnit fsEmpty (some cfgNoToken)).1 = .error (lit "invalid configuration: " ++
        (if cfgNoToken.CredentialsFile = [] then lit "credentials_file is required"
          else lit "token_file is required")) :=
  ⟨Or.inr rfl, validateConfig_empty_path extUnit fsEmpty cfgNoToken (Or.inr rfl)⟩

/-! ## C10: `Reply-To` on the attachment path -/

set_option maxRecDepth 1000000 in
/-- C10, at an email with a reply-to address and one attachment: the email is
valid, the attachment path composes a message without any `Reply-To`, and the
simple path writes the line `Reply-To: r@x.com` for the same email without
its attachment. -/
theorem attachments_path_drops_replyTo :
    validateEmail emailReplyTo = none ∧
    (∃ buf, composeWithAttachments env0 0 emailReplyTo = .ok buf ∧
      stringsContains buf (lit "Reply-To") = false) ∧
    stringsContains (composeSimple env0 0 { emailReplyTo with Attachments := [] })
      (lit "Reply-To: r@x.com\r\n") = true := by
  refine ⟨by decide, ⟨_, rfl, by decide⟩, by decide⟩

end Gmgo
